import Mathlib

/-!
Verification development for the `everscale-web-tools` ABI components
(`src/src/components/ExecutorAbiForm.vue`): the Vue ABI-loading form and the
React `SerializerWorkspace`.

Modelling conventions:
* `localStorage` is an association list `List (String × String)` with unique
  keys kept in insertion order (the enumeration order `Object.keys` yields for
  the string keys this component creates); `setItem` updates in place or
  appends, `removeItem` deletes, `getItem` looks up.
* Exceptions are modelled with `Except String`; the `String` is the value of
  `err.toString()` observed by the `catch` blocks.
* The opaque external module `@core` (`checkAbi`, `parseAbi`) and the browser
  environment (`fetch`, `FileReader`, the `Intl.Collator` comparison and the
  current date) are capability boundaries: they enter as function-valued
  parameters (`Env`, `le`, `dateStr`), never as fixed implementations.
* `emit('change', x)` is modelled by appending `x` to an `emitted` log; the
  payload type is `Option String` because `onSelectAbi` can pass `null`.
-/

namespace EverTools

/-! ## Client-side storage (`localStorage`) -/

/-- `localStorage.setItem`: overwrite in place when the key exists, else
append (a fresh key enumerates last in `Object.keys`). -/
def setItem : List (String × String) → String → String → List (String × String)
  | [], k, v => [(k, v)]
  | (k0, v0) :: rest, k, v =>
    if k0 = k then (k, v) :: rest else (k0, v0) :: setItem rest k v

/-- `localStorage.getItem`: `none` models the `null` returned for a missing
key. -/
def getItem : List (String × String) → String → Option String
  | [], _ => none
  | (k0, v0) :: rest, k => if k0 = k then some v0 else getItem rest k

/-- `localStorage.removeItem`. -/
def removeItem (ls : List (String × String)) (k : String) : List (String × String) :=
  ls.filter (fun kv => kv.1 ≠ k)

/-- Insert `x` into a list ordered by the boolean comparison `le`. -/
def insertLe (le : String → String → Bool) (x : String) : List String → List String
  | [] => [x]
  | y :: ys => if le x y then x :: y :: ys else y :: insertLe le x ys

/-- Sorting with a comparator, modelling `Array.prototype.sort(cmp)` (an
insertion sort; for the consistent `Intl.Collator` comparator the result is
the `cmp`-sorted rearrangement, which is all the component observes). -/
def sortLe (le : String → String → Bool) (l : List String) : List String :=
  l.foldr (insertLe le) []

/-- `getAllAbis = () => Object.keys(localStorage).sort(COLLATOR.compare)`
(line 18). `le` abstracts the collation-aware comparison of the
`Intl.Collator(undefined, \x7b numeric: true, sensitivity: base \x7d)`
instance built at line 16. -/
def getAllAbis (le : String → String → Bool) (ls : List (String × String)) : List String :=
  sortLe le (ls.map Prod.fst)

/-! ## Inputs and environment of the form -/

/-- The `zip` member of `fieldsInput` (line 32). -/
structure ZipField where
  file : Option Unit := none
  link : Option String := none
deriving Repr

/-- `fieldsInput` (line 32). A chosen `File` object carries no content of its
own here — the bytes arrive through the environment (`Env.fileRead`) — so the
`file` member only records presence. -/
structure FieldsInput where
  file : Option Unit := none
  text : Option String := none
  link : Option String := none
  zip : Option ZipField := none
deriving Repr

/-- The capability boundary of one form submission: the opaque `@core`
validator, the network, and the chosen file's `FileReader` result
(`some none` models a load event whose `result` is `undefined`).
`rewrite` stands for `rewriteAbiUrl` from `../common`, which is outside this
component; it is kept fully abstract. -/
structure Env where
  checkAbi : String → Except String Unit
  fetchText : String → Except String String
  fileRead : Except String (Option String)
  rewrite : String → String

/-- `loadAbiText` (lines 161-180): pasted text first, then the link (fetched
after `rewriteAbiUrl`), then the chosen file (`content || ''` turns a missing
result into the empty string), else `throw new Error('No ABI input
specified')`. -/
def loadAbiText (env : Env) (fields : FieldsInput) : Except String String :=
  match fields.text with
  | some t => .ok t
  | none =>
    match fields.link with
    | some link => env.fetchText (env.rewrite link)
    | none =>
      match fields.file with
      | some _ => env.fileRead.map (fun content => content.getD "")
      | none => .error "No ABI input specified"

/-! ## Zip processing -/

/-- One decompressed archive entry, already decoded to text
(`loadZipContent`, lines 195-204). -/
structure ZipEntry where
  filename : String
  text : String
deriving Repr

/-- The result of `loadZipContent` (lines 184-213): the archive's name and
its entries, in the `localeCompare`-sorted order that function produces. -/
structure ZipContent where
  filename : String
  files : List ZipEntry
deriving Repr

/-- The first entry rejected by `core.checkAbi`, with the caught error: the
`forEach` at lines 222-228 throws at the first failing entry. -/
def firstBad (checkAbi : String → Except String Unit) :
    List ZipEntry → Option (ZipEntry × String)
  | [] => none
  | f :: rest =>
    match checkAbi f.text with
    | .error e => some (f, e)
    | .ok _ => firstBad checkAbi rest

/-- A single apostrophe character (U+0027), used by the zip error message. -/
def apos : String := String.singleton (Char.ofNat 39)

/-- The message of the error thrown at line 226. -/
def zipErrMsg (filename err : String) : String :=
  "Processing error for " ++ apos ++ filename ++ apos ++ " file. Internal " ++ err

/-- `filename.split('.').shift()`: everything before the first dot (the
whole string when there is no dot, matching the JS split). -/
def baseName (s : String) : String :=
  String.mk (s.data.takeWhile (fun c => !(c = '.')))

/-- The storage key built at line 237: `[<parent>] <entry base name>`. -/
def zipStorageKey (parent : String) (f : ZipEntry) : String :=
  "[" ++ parent ++ "] " ++ baseName f.filename

/-- `processZipContent` (lines 217-247). Empty archives and entries rejected
by `core.checkAbi` throw before anything is stored; otherwise every entry is
written to storage (left to right, later duplicates of a key overwriting
earlier ones exactly as repeated `setItem` does) and the `(storageKey, text)`
pairs are returned in entry order. `dateStr` stands for
`new Date().toISOString().split('T')[0]`. Returns the updated storage
alongside the pairs. -/
def processZipContent (checkAbi : String → Except String Unit) (dateStr : String)
    (ls : List (String × String)) (zc : ZipContent) :
    Except String (List (String × String) × List (String × String)) :=
  if zc.files.isEmpty then .error "Provided zip archive is empty"
  else
    match firstBad checkAbi zc.files with
    | some (f, e) => .error (zipErrMsg f.filename e)
    | none =>
      let parent := baseName zc.filename ++ "_" ++ dateStr
      let pairs := zc.files.map (fun f => (zipStorageKey parent f, f.text))
      .ok (pairs.foldl (fun acc kv => setItem acc kv.1 kv.2) ls, pairs)

/-! ## The modal type and the Everscan registry response -/

/-- `LoadAbiType` (lines 8-13). -/
inductive LoadAbiType where
  | fromFile | fromText | fromLink | fromZip
deriving Repr, DecidableEq

/-- The JSON body returned by `https://verify.everscan.io/info/code_hash/…`.
`abi`, when present, already holds `JSON.stringify(data.abi)` — the exact
string line 71 assigns; `contractName` models `data.contract_name`. -/
structure EverscanInfo where
  abi : Option String := none
  contractName : Option String := none
deriving Repr

/-- One `fetch` started by the watcher at lines 44-87: its generation `id`,
the `localState.codeHashChanged` flag of its closure, and whether its
`AbortController` was aborted. Flag and abort are both set by the same
`onCleanup` callback. -/
structure Fetch where
  id : Nat
  flagged : Bool
  aborted : Bool
deriving Repr, DecidableEq

/-! ## The component state -/

/-- The reactive state of `ExecutorAbiForm.vue` plus the bookkeeping of its
watcher (`fetches`, `activeCleanup` — the registered `onCleanup` of the last
completed watcher run, `nextId` — a fresh-generation counter) and the log of
`emit('change', …)` payloads. -/
structure ComponentState where
  localStorage : List (String × String)
  abiNameInput : String
  fieldsInput : FieldsInput
  everscanAbi : Option String
  error : Option String
  storedAbi : List String
  selectedAbi : Option String
  abiSelectorVisible : Bool
  inProgress : Bool
  modalType : Option LoadAbiType
  emitted : List (Option String)
  fetches : List Fetch
  activeCleanup : Option Nat
  nextId : Nat

/-- The state at setup (lines 29-42): `storedAbi` starts as `getAllAbis()`,
everything else empty/idle. -/
def initState (le : String → String → Bool) (ls : List (String × String)) : ComponentState :=
  { localStorage := ls
    abiNameInput := "abi1"
    fieldsInput := {}
    everscanAbi := none
    error := none
    storedAbi := getAllAbis le ls
    selectedAbi := none
    abiSelectorVisible := false
    inProgress := false
    modalType := none
    emitted := []
    fetches := []
    activeCleanup := none
    nextId := 0 }

/-! ## The watcher on `[props.codeHash, props.address]` (lines 44-87) -/

/-- The `onCleanup` callback registered at lines 54-58, run by Vue before the
next watcher invocation (when one was registered): reset `everscanAbi`, set
the closed-over `codeHashChanged` flag, abort the controller. -/
def runCleanup (s : ComponentState) : ComponentState :=
  match s.activeCleanup with
  | none => s
  | some id =>
    { s with
      everscanAbi := none
      fetches := s.fetches.map
        (fun f => if f.id = id then { f with flagged := true, aborted := true } else f)
      activeCleanup := none }

/-- The watcher body after cleanup (lines 47-63): return early when either
prop is `null`; otherwise register the new cleanup and start a fetch of the
current generation. -/
def startWatch (s : ComponentState) (codeHash address : Option String) : ComponentState :=
  match codeHash, address with
  | some _, some _ =>
    { s with
      fetches := s.fetches ++ [{ id := s.nextId, flagged := false, aborted := false }]
      activeCleanup := some s.nextId
      nextId := s.nextId + 1 }
  | _, _ => s

/-- A prop change: previous cleanup first, then the new watcher body. -/
def stepProps (s : ComponentState) (codeHash address : Option String) : ComponentState :=
  startWatch (runCleanup s) codeHash address

/-- Arrival of the parsed JSON of fetch `id` (the `.then` continuation at
lines 65-81): a no-op when the closure's `codeHashChanged` flag is set; else
store the serialized `abi` field when present. (`document.title` is outside
the model.) -/
def respondFetch (s : ComponentState) (id : Nat) (info : Option EverscanInfo) :
    ComponentState :=
  match s.fetches.find? (fun f => f.id = id) with
  | none => s
  | some f =>
    if f.flagged then s
    else
      match info with
      | some i =>
        match i.abi with
        | some a => { s with everscanAbi := some a }
        | none => s
      | none => s

/-! ## Form actions -/

/-- `onSelectAbi` (lines 101-106): read the stored text, set `selectedAbi`
to the name only when the key exists, hide the selector, and emit the text —
`null` included — unconditionally. -/
def onSelectAbi (s : ComponentState) (name : String) : ComponentState :=
  let text := getItem s.localStorage name
  { s with
    selectedAbi := match text with | some _ => some name | none => none
    abiSelectorVisible := false
    emitted := s.emitted ++ [text] }

/-- `onDeleteAbi` (lines 108-111). -/
def onDeleteAbi (le : String → String → Bool) (s : ComponentState) (name : String) :
    ComponentState :=
  let ls := removeItem s.localStorage name
  { s with localStorage := ls, storedAbi := getAllAbis le ls }

/-- `closeModal` (lines 113-117). -/
def closeModal (s : ComponentState) : ComponentState :=
  { s with modalType := none, fieldsInput := {}, error := none }

/-- `onSubmitEverscanAbi` (lines 249-253). -/
def onSubmitEverscanAbi (s : ComponentState) : ComponentState :=
  match s.everscanAbi with
  | some a => { s with emitted := s.emitted ++ [some a] }
  | none => s

/-- The `try/catch/finally` body of `onSubmit` (lines 260-272), entered with
`inProgress` already true: load, validate, store under `abiNameInput`,
refresh `storedAbi`, select, emit, close the modal; on any throw only set
`error`. `finally` clears `inProgress` on both paths. -/
def onSubmitBody (le : String → String → Bool) (env : Env) (s : ComponentState) :
    ComponentState :=
  match (loadAbiText env s.fieldsInput).bind
      (fun t => (env.checkAbi t).map (fun _ => t)) with
  | .ok t =>
    let ls := setItem s.localStorage s.abiNameInput t
    { s with
      localStorage := ls
      storedAbi := getAllAbis le ls
      selectedAbi := some s.abiNameInput
      emitted := s.emitted ++ [some t]
      modalType := none
      fieldsInput := {}
      error := none
      inProgress := false }
  | .error e => { s with error := some e, inProgress := false }

/-- `onSubmit` (lines 255-273): the re-entrancy guard at line 256, then the
body with `inProgress` set. -/
def onSubmit (le : String → String → Bool) (env : Env) (s : ComponentState) :
    ComponentState :=
  if s.inProgress then s else onSubmitBody le env { s with inProgress := true }

/-- The `try/catch/finally` body of `onSubmitZip` (lines 280-291).
`zipLoad` is the outcome of `loadZipContent` (network/unzip/decode, all
environmental). -/
def onSubmitZipBody (le : String → String → Bool) (env : Env) (dateStr : String)
    (zipLoad : Except String ZipContent) (s : ComponentState) : ComponentState :=
  match zipLoad.bind (processZipContent env.checkAbi dateStr s.localStorage) with
  | .ok (ls, abis) =>
    { s with
      localStorage := ls
      storedAbi := getAllAbis le ls
      selectedAbi := (abis.head?).map Prod.fst
      emitted := s.emitted ++ [(abis.head?).map Prod.snd]
      modalType := none
      fieldsInput := {}
      error := none
      inProgress := false }
  | .error e => { s with error := some e, inProgress := false }

/-- `onSubmitZip` (lines 275-292): guard, then the body with `inProgress`
set. -/
def onSubmitZip (le : String → String → Bool) (env : Env) (dateStr : String)
    (zipLoad : Except String ZipContent) (s : ComponentState) : ComponentState :=
  if s.inProgress then s
  else onSubmitZipBody le env dateStr zipLoad { s with inProgress := true }

/-! ## Traces -/

/-- Everything that can happen to the component: prop changes, fetch
responses, the form actions, and the field edits of the modal
(`onChangeFile`/`onChangeText`/… all end in a plain `fieldsInput`
assignment, collapsed into `setFields`; `onToggleAbiSelector` /
`onHideAbiSelector` only touch the selector UI state). -/
inductive Event where
  | propsChange (codeHash address : Option String)
  | respond (id : Nat) (info : Option EverscanInfo)
  | submit (env : Env)
  | submitZip (env : Env) (dateStr : String) (zipLoad : Except String ZipContent)
  | selectAbi (name : String)
  | deleteAbi (name : String)
  | submitEverscan
  | setFields (f : FieldsInput)
  | setAbiName (name : String)
  | setModal (t : Option LoadAbiType)
  | closeModal
  | toggleSelector

/-- One component step. -/
def step (le : String → String → Bool) (s : ComponentState) : Event → ComponentState
  | .propsChange ch addr => stepProps s ch addr
  | .respond id info => respondFetch s id info
  | .submit env => onSubmit le env s
  | .submitZip env dateStr zipLoad => onSubmitZip le env dateStr zipLoad s
  | .selectAbi name => onSelectAbi s name
  | .deleteAbi name => onDeleteAbi le s name
  | .submitEverscan => onSubmitEverscanAbi s
  | .setFields f => { s with fieldsInput := f }
  | .setAbiName name => { s with abiNameInput := name }
  | .setModal t => { s with modalType := t }
  | .closeModal => closeModal s
  | .toggleSelector => { s with abiSelectorVisible := !s.abiSelectorVisible }

/-- The state after a sequence of events from setup. -/
def execTrace (le : String → String → Bool) (ls : List (String × String))
    (evs : List Event) : ComponentState :=
  evs.foldl (step le) (initState le ls)

/-! ## The cancellation invariant of the watcher -/

/-- Every fetch other than the one guarded by the currently registered
cleanup has been flagged and aborted, and whenever no cleanup is registered
(initially, or after an early return on null props) `everscanAbi` is
already cleared. -/
def WatchInv (s : ComponentState) : Prop :=
  (∀ f ∈ s.fetches, s.activeCleanup ≠ some f.id → f.flagged = true ∧ f.aborted = true) ∧
  (s.activeCleanup = none → s.everscanAbi = none)

theorem watchInv_init (le : String → String → Bool) (ls : List (String × String)) :
    WatchInv (initState le ls) := by
  constructor
  · intro f hf
    simp [initState] at hf
  · intro _
    rfl

theorem runCleanup_activeCleanup (s : ComponentState) :
    (runCleanup s).activeCleanup = none := by
  cases hc : s.activeCleanup <;> simp [runCleanup, hc]

theorem runCleanup_everscanAbi (s : ComponentState) (h : WatchInv s) :
    (runCleanup s).everscanAbi = none := by
  cases hc : s.activeCleanup with
  | none => simpa [runCleanup, hc] using h.2 hc
  | some id => simp [runCleanup, hc]

theorem runCleanup_flagged (s : ComponentState) (h : WatchInv s) :
    ∀ f ∈ (runCleanup s).fetches, f.flagged = true ∧ f.aborted = true := by
  intro f hf
  cases hc : s.activeCleanup with
  | none =>
    simp only [runCleanup, hc] at hf
    exact h.1 f hf (by simp [hc])
  | some id =>
    simp only [runCleanup, hc, List.mem_map] at hf
    obtain ⟨g, hg, hfg⟩ := hf
    by_cases hid : g.id = id
    · simp only [if_pos hid] at hfg
      subst hfg
      exact ⟨rfl, rfl⟩
    · simp only [if_neg hid] at hfg
      subst hfg
      refine h.1 g hg ?_
      rw [hc]
      intro hsome
      exact hid (Option.some_injective _ hsome).symm

theorem startWatch_everscanAbi (s : ComponentState) (ch addr : Option String) :
    (startWatch s ch addr).everscanAbi = s.everscanAbi := by
  cases ch <;> cases addr <;> simp [startWatch]

theorem stepProps_everscanAbi (s : ComponentState) (h : WatchInv s)
    (ch addr : Option String) : (stepProps s ch addr).everscanAbi = none := by
  unfold stepProps
  rw [startWatch_everscanAbi]
  exact runCleanup_everscanAbi s h

theorem watchInv_runCleanup (s : ComponentState) (h : WatchInv s) :
    WatchInv (runCleanup s) := by
  refine ⟨fun f hf _ => runCleanup_flagged s h f hf, fun _ => runCleanup_everscanAbi s h⟩

theorem watchInv_startWatch (s : ComponentState) (h : WatchInv s)
    (hnone : s.activeCleanup = none) (ch addr : Option String) :
    WatchInv (startWatch s ch addr) := by
  unfold startWatch
  cases ch with
  | none => exact h
  | some c =>
    cases addr with
    | none => exact h
    | some a =>
      constructor
      · intro f hf hne
        simp only [List.mem_append, List.mem_singleton] at hf
        cases hf with
        | inl hmem => exact h.1 f hmem (by rw [hnone]; simp)
        | inr hnew =>
          exfalso
          apply hne
          rw [hnew]
      · intro hc
        simp at hc


theorem watchInv_of_fields_eq (s s' : ComponentState)
    (hf : s'.fetches = s.fetches) (ha : s'.activeCleanup = s.activeCleanup)
    (he : s'.everscanAbi = s.everscanAbi) (h : WatchInv s) : WatchInv s' := by
  constructor
  · intro f hmem hne
    rw [hf] at hmem
    rw [ha] at hne
    exact h.1 f hmem hne
  · intro hc
    rw [ha] at hc
    rw [he]
    exact h.2 hc

theorem onSubmitBody_watch_fields (le : String → String → Bool) (env : Env)
    (s : ComponentState) :
    (onSubmitBody le env s).fetches = s.fetches ∧
    (onSubmitBody le env s).activeCleanup = s.activeCleanup ∧
    (onSubmitBody le env s).everscanAbi = s.everscanAbi := by
  unfold onSubmitBody
  split <;> simp

theorem onSubmitZipBody_watch_fields (le : String → String → Bool) (env : Env)
    (dateStr : String) (zipLoad : Except String ZipContent) (s : ComponentState) :
    (onSubmitZipBody le env dateStr zipLoad s).fetches = s.fetches ∧
    (onSubmitZipBody le env dateStr zipLoad s).activeCleanup = s.activeCleanup ∧
    (onSubmitZipBody le env dateStr zipLoad s).everscanAbi = s.everscanAbi := by
  unfold onSubmitZipBody
  split <;> simp

theorem watchInv_respondFetch (s : ComponentState) (h : WatchInv s) (id : Nat)
    (info : Option EverscanInfo) : WatchInv (respondFetch s id info) := by
  unfold respondFetch
  cases hfind : s.fetches.find? (fun f => f.id = id) with
  | none => exact h
  | some f =>
    by_cases hfl : f.flagged
    · simp only [if_pos hfl]
      exact h
    · simp only [if_neg hfl]
      have hmem : f ∈ s.fetches := List.mem_of_find?_eq_some hfind
      have hact : s.activeCleanup = some f.id := by
        by_contra hne
        exact hfl (h.1 f hmem hne).1
      cases info with
      | none => exact h
      | some i =>
        cases hab : i.abi with
        | none =>
          simp only [hab]
          exact h
        | some a =>
          simp only [hab]
          constructor
          · intro g hg hne
            exact h.1 g hg hne
          · intro hc
            have hc2 : s.activeCleanup = none := hc
            rw [hact] at hc2
            exact Option.noConfusion hc2

theorem watchInv_step (le : String → String → Bool) (s : ComponentState)
    (h : WatchInv s) (e : Event) : WatchInv (step le s e) := by
  cases e with
  | propsChange ch addr =>
    exact watchInv_startWatch _ (watchInv_runCleanup s h) (runCleanup_activeCleanup s) ch addr
  | respond id info => exact watchInv_respondFetch s h id info
  | submit env =>
    show WatchInv (onSubmit le env s)
    unfold onSubmit
    split
    · exact h
    · have hb := onSubmitBody_watch_fields le env { s with inProgress := true }
      exact watchInv_of_fields_eq s _ hb.1 hb.2.1 hb.2.2 h
  | submitZip env dateStr zipLoad =>
    show WatchInv (onSubmitZip le env dateStr zipLoad s)
    unfold onSubmitZip
    split
    · exact h
    · have hb := onSubmitZipBody_watch_fields le env dateStr zipLoad { s with inProgress := true }
      exact watchInv_of_fields_eq s _ hb.1 hb.2.1 hb.2.2 h
  | selectAbi name => exact watchInv_of_fields_eq s _ rfl rfl rfl h
  | deleteAbi name => exact watchInv_of_fields_eq s _ rfl rfl rfl h
  | submitEverscan =>
    refine watchInv_of_fields_eq s _ ?_ ?_ ?_ h <;>
      · show _ = _
        cases hev : s.everscanAbi <;> simp [step, onSubmitEverscanAbi, hev]
  | setFields f => exact watchInv_of_fields_eq s _ rfl rfl rfl h
  | setAbiName name => exact watchInv_of_fields_eq s _ rfl rfl rfl h
  | setModal t => exact watchInv_of_fields_eq s _ rfl rfl rfl h
  | closeModal => exact watchInv_of_fields_eq s _ rfl rfl rfl h
  | toggleSelector => exact watchInv_of_fields_eq s _ rfl rfl rfl h

theorem watchInv_execTrace (le : String → String → Bool) (ls : List (String × String))
    (evs : List Event) : WatchInv (execTrace le ls evs) := by
  unfold execTrace
  induction evs using List.reverseRecOn with
  | nil => exact watchInv_init le ls
  | append_singleton evs e ih =>
    rw [List.foldl_append]
    exact watchInv_step le _ ih e

/-! ## JSON: characters, whitespace, digits

A model of the two JavaScript builtins `prettyPrint` composes:
`JSON.parse(text)` and `JSON.stringify(value, undefined, 4)`.  Numbers are
kept as their lexemes (sign/digit structure) rather than as IEEE doubles:
the only facts proved about them are print/relex facts, for which the
lexeme is the faithful observable.  Strings are Lean `List Char` (Unicode
scalar values); lone UTF-16 surrogates, which JavaScript strings can hold,
are outside the model. -/

/-- The whitespace accepted by `JSON.parse`: tab, LF, CR, space. -/
def isWs (ch : Char) : Bool := ch = ' ' || ch = '\t' || ch = '\n' || ch = '\r'

/-- Drop leading JSON whitespace. -/
def skipWs : List Char → List Char
  | [] => []
  | ch :: cs => if isWs ch then skipWs cs else ch :: cs

theorem skipWs_append (ws cs : List Char) (h : ws.all isWs = true) :
    skipWs (ws ++ cs) = skipWs cs := by
  induction ws with
  | nil => rfl
  | cons c ws ih =>
    simp only [List.all_cons, Bool.and_eq_true] at h
    simp [skipWs, h.1, ih h.2]

theorem skipWs_cons_of_not (c : Char) (cs : List Char) (h : isWs c = false) :
    skipWs (c :: cs) = c :: cs := by
  simp [skipWs, h]

/-- The decimal digit character for `d`. -/
def digitChar (d : Fin 10) : Char := Char.ofNat (48 + d.val)

/-- Read a decimal digit character. -/
def charDigit? (c : Char) : Option (Fin 10) :=
  if h : 48 ≤ c.toNat ∧ c.toNat < 58 then some ⟨c.toNat - 48, by omega⟩ else none

theorem charDigit?_digitChar : ∀ d : Fin 10, charDigit? (digitChar d) = some d := by
  decide

/-- A lower-case hexadecimal digit character (what `JSON.stringify` emits in
`\u00XX` escapes). -/
def hexDigitChar (n : Fin 16) : Char :=
  if n.val < 10 then Char.ofNat (48 + n.val) else Char.ofNat (87 + n.val)

/-- Read a hexadecimal digit, either case (what `JSON.parse` accepts). -/
def hexVal? (ch : Char) : Option Nat :=
  if 48 ≤ ch.toNat ∧ ch.toNat < 58 then some (ch.toNat - 48)
  else if 97 ≤ ch.toNat ∧ ch.toNat < 103 then some (ch.toNat - 87)
  else if 65 ≤ ch.toNat ∧ ch.toNat < 71 then some (ch.toNat - 55)
  else none

theorem hexVal?_hexDigitChar : ∀ n : Fin 16, hexVal? (hexDigitChar n) = some n.val := by
  decide

/-! ## JSON number lexemes -/

/-- The integer part of a JSON number: `0`, or a nonzero digit (stored as
`first+1`) followed by digits — leading zeros are ungrammatical. -/
inductive IntLex where
  | zero
  | pos (first : Fin 9) (rest : List (Fin 10))
deriving Repr, DecidableEq

/-- A fraction part `.d0 ds…` (at least one digit). -/
structure FracLex where
  d0 : Fin 10
  ds : List (Fin 10)
deriving Repr, DecidableEq

/-- The optional sign of an exponent. -/
inductive SignLex where
  | plus | minus | noSign
deriving Repr, DecidableEq

/-- An exponent part `e|E [sign] d0 ds…`. -/
structure ExpLex where
  upper : Bool
  sign : SignLex
  d0 : Fin 10
  ds : List (Fin 10)
deriving Repr, DecidableEq

/-- A complete JSON number lexeme. -/
structure NumLex where
  neg : Bool
  int : IntLex
  frac : Option FracLex
  exp : Option ExpLex
deriving Repr, DecidableEq

def printDigits (ds : List (Fin 10)) : List Char := ds.map digitChar

def printInt : IntLex → List Char
  | .zero => ['0']
  | .pos f ds => digitChar ⟨f.val + 1, by omega⟩ :: printDigits ds

def printSign : SignLex → List Char
  | .plus => ['+']
  | .minus => ['-']
  | .noSign => []

def printFrac : Option FracLex → List Char
  | none => []
  | some f => '.' :: digitChar f.d0 :: printDigits f.ds

def printExp : Option ExpLex → List Char
  | none => []
  | some e =>
    (if e.upper then 'E' else 'e') :: (printSign e.sign ++ digitChar e.d0 :: printDigits e.ds)

/-- The number lexeme exactly as it appeared in the source text (and as
`JSON.stringify` would re-emit it, the lexeme being what the model keeps of
the numeric value). -/
def printNum (n : NumLex) : List Char :=
  (if n.neg then ['-'] else []) ++ printInt n.int ++ printFrac n.frac ++ printExp n.exp

/-- Maximal-munch run of decimal digits. -/
def lexDigits : List Char → List (Fin 10) × List Char
  | [] => ([], [])
  | c :: cs =>
    match charDigit? c with
    | some d =>
      let r := lexDigits cs
      (d :: r.1, r.2)
    | none => ([], c :: cs)

/-- The integer part: at least one digit, no leading zero. -/
def lexInt (cs : List Char) : Option (IntLex × List Char) :=
  match lexDigits cs with
  | ([], _) => none
  | (d :: ds, rest) =>
    if d.val = 0 then
      match ds with
      | [] => some (.zero, rest)
      | _ :: _ => none
    else some (.pos ⟨d.val - 1, by have := d.isLt; omega⟩ ds, rest)

/-- An optional fraction part; a bare `.` without digits fails the whole
parse, as in the JSON grammar. -/
def lexFrac (cs : List Char) : Option (Option FracLex × List Char) :=
  match cs with
  | [] => some (none, [])
  | c :: cs1 =>
    if c = '.' then
      match lexDigits cs1 with
      | ([], _) => none
      | (d :: ds, rest) => some (some ⟨d, ds⟩, rest)
    else some (none, c :: cs1)

def lexSign (cs : List Char) : SignLex × List Char :=
  match cs with
  | [] => (.noSign, [])
  | c :: cs1 =>
    if c = '+' then (.plus, cs1)
    else if c = '-' then (.minus, cs1)
    else (.noSign, c :: cs1)

/-- An optional exponent part; `e`/`E` without digits fails. -/
def lexExp (cs : List Char) : Option (Option ExpLex × List Char) :=
  match cs with
  | [] => some (none, [])
  | c :: cs1 =>
    if c = 'e' ∨ c = 'E' then
      let r := lexSign cs1
      match lexDigits r.2 with
      | ([], _) => none
      | (d :: ds, rest) => some (some ⟨c = 'E', r.1, d, ds⟩, rest)
    else some (none, c :: cs1)

/-- A JSON number lexeme, maximal munch. -/
def lexNum (cs : List Char) : Option (NumLex × List Char) :=
  match cs with
  | [] => none
  | c :: cs0 =>
    let start := if c = '-' then (true, cs0) else (false, c :: cs0)
    match lexInt start.2 with
    | none => none
    | some (i, cs2) =>
      match lexFrac cs2 with
      | none => none
      | some (fr, cs3) =>
        match lexExp cs3 with
        | none => none
        | some (ex, cs4) => some ({ neg := start.1, int := i, frac := fr, exp := ex }, cs4)

/-! ## Relexing printed number lexemes -/

/-- The first character (if any) satisfies `p` in no case. -/
def headNot (p : Char → Bool) : List Char → Bool
  | [] => true
  | c :: _ => !(p c)

/-- What may follow a printed value in `JSON.stringify(·, undefined, 4)`
output: end of input, a separating comma, or the newline before the closing
bracket. -/
def numStop : List Char → Bool
  | [] => true
  | c :: _ => c = ',' || c = '\n'

def noDigitHead : List Char → Bool := headNot (fun c => (charDigit? c).isSome)

def notDotHead : List Char → Bool := headNot (fun c => c = '.')

def notExpHead : List Char → Bool := headNot (fun c => c = 'e' || c = 'E')

theorem numStop_noDigitHead (rest : List Char) (h : numStop rest = true) :
    noDigitHead rest = true := by
  cases rest with
  | nil => rfl
  | cons c cs =>
    simp only [numStop, Bool.or_eq_true, decide_eq_true_eq] at h
    rcases h with h | h <;> subst h <;> rfl

theorem numStop_notDotHead (rest : List Char) (h : numStop rest = true) :
    notDotHead rest = true := by
  cases rest with
  | nil => rfl
  | cons c cs =>
    simp only [numStop, Bool.or_eq_true, decide_eq_true_eq] at h
    rcases h with h | h <;> subst h <;> rfl

theorem numStop_notExpHead (rest : List Char) (h : numStop rest = true) :
    notExpHead rest = true := by
  cases rest with
  | nil => rfl
  | cons c cs =>
    simp only [numStop, Bool.or_eq_true, decide_eq_true_eq] at h
    rcases h with h | h <;> subst h <;> rfl

theorem lexDigits_of_noDigit (rest : List Char) (h : noDigitHead rest = true) :
    lexDigits rest = ([], rest) := by
  cases rest with
  | nil => rfl
  | cons c cs =>
    cases hv : charDigit? c with
    | some d =>
      simp [noDigitHead, headNot, hv] at h
    | none => simp [lexDigits, hv]

theorem lexDigits_round (dgs : List (Fin 10)) (rest : List Char)
    (h : noDigitHead rest = true) :
    lexDigits (printDigits dgs ++ rest) = (dgs, rest) := by
  induction dgs with
  | nil => simpa [printDigits] using lexDigits_of_noDigit rest h
  | cons d ds ih =>
    simp [printDigits, lexDigits, charDigit?_digitChar d] at ih ⊢
    simp [ih]

theorem lexInt_round (i : IntLex) (rest : List Char) (h : noDigitHead rest = true) :
    lexInt (printInt i ++ rest) = some (i, rest) := by
  cases i with
  | zero =>
    simp only [printInt, List.cons_append, List.nil_append]
    have hc : charDigit? '0' = some ⟨0, by omega⟩ := rfl
    simp [lexInt, lexDigits, hc, lexDigits_of_noDigit rest h]
  | pos f ds =>
    simp only [printInt, List.cons_append]
    have hc : charDigit? (digitChar ⟨f.val + 1, by omega⟩) = some ⟨f.val + 1, by omega⟩ :=
      charDigit?_digitChar _
    have hds : lexDigits (printDigits ds ++ rest) = (ds, rest) := lexDigits_round ds rest h
    simp [lexInt, lexDigits, hc, hds]

theorem lexFrac_round (fr : Option FracLex) (tail : List Char)
    (h1 : noDigitHead tail = true) (h2 : notDotHead tail = true) :
    lexFrac (printFrac fr ++ tail) = some (fr, tail) := by
  cases fr with
  | none =>
    cases tail with
    | nil => rfl
    | cons c cs =>
      simp only [notDotHead, headNot, Bool.not_eq_true', decide_eq_false_iff_not] at h2
      simp [printFrac, lexFrac, h2]
  | some f =>
    simp only [printFrac, List.cons_append]
    have hc : charDigit? (digitChar f.d0) = some f.d0 := charDigit?_digitChar _
    have hds : lexDigits (printDigits f.ds ++ tail) = (f.ds, tail) :=
      lexDigits_round f.ds tail h1
    simp [lexFrac, lexDigits, hc, hds]

theorem lexSign_round (sg : SignLex) (d : Fin 10) (tail : List Char) :
    lexSign (printSign sg ++ digitChar d :: tail) = (sg, digitChar d :: tail) := by
  cases sg with
  | plus => rfl
  | minus => rfl
  | noSign =>
    have h1 : (digitChar d = '+') = False := by
      simp only [eq_iff_iff, iff_false]
      revert d
      decide
    have h2 : (digitChar d = '-') = False := by
      simp only [eq_iff_iff, iff_false]
      revert d
      decide
    simp [printSign, lexSign, h1, h2]

theorem lexExp_round (ex : Option ExpLex) (tail : List Char)
    (h1 : noDigitHead tail = true) (h2 : notExpHead tail = true) :
    lexExp (printExp ex ++ tail) = some (ex, tail) := by
  cases ex with
  | none =>
    cases tail with
    | nil => rfl
    | cons c cs =>
      simp only [notExpHead, headNot, Bool.not_eq_true', Bool.or_eq_false_iff,
        decide_eq_false_iff_not] at h2
      simp [printExp, lexExp, h2.1, h2.2]
  | some e =>
    obtain ⟨u, sg, d0, ds⟩ := e
    have hsg : lexSign (printSign sg ++ digitChar d0 :: (printDigits ds ++ tail)) =
        (sg, digitChar d0 :: (printDigits ds ++ tail)) := lexSign_round _ _ _
    have hc : charDigit? (digitChar d0) = some d0 := charDigit?_digitChar _
    have hds : lexDigits (printDigits ds ++ tail) = (ds, tail) :=
      lexDigits_round ds tail h1
    cases u with
    | true =>
      simp only [printExp, if_pos rfl, List.cons_append, List.append_assoc]
      simp [lexExp, hsg, lexDigits, hc, hds]
    | false =>
      simp only [printExp, Bool.false_eq_true, if_neg, List.cons_append,
        List.append_assoc]
      simp [lexExp, hsg, lexDigits, hc, hds]

theorem digitChar_ne_minus : ∀ d : Fin 10, ¬digitChar d = '-' := by
  decide

theorem lexNum_round (n : NumLex) (rest : List Char) (h : numStop rest = true) :
    lexNum (printNum n ++ rest) = some (n, rest) := by
  obtain ⟨ng, i, fr, ex⟩ := n
  have hnd2 : noDigitHead (printExp ex ++ rest) = true := by
    cases ex with
    | none => simpa [printExp] using numStop_noDigitHead rest h
    | some e =>
      obtain ⟨u, sg, d0, ds⟩ := e
      cases u <;> rfl
  have hdot2 : notDotHead (printExp ex ++ rest) = true := by
    cases ex with
    | none => simpa [printExp] using numStop_notDotHead rest h
    | some e =>
      obtain ⟨u, sg, d0, ds⟩ := e
      cases u <;> rfl
  have hnd1 : noDigitHead (printFrac fr ++ (printExp ex ++ rest)) = true := by
    cases fr with
    | none => simpa [printFrac] using hnd2
    | some f => rfl
  have hexp : lexExp (printExp ex ++ rest) = some (ex, rest) :=
    lexExp_round ex rest (numStop_noDigitHead rest h) (numStop_notExpHead rest h)
  have hfr : lexFrac (printFrac fr ++ (printExp ex ++ rest)) =
      some (fr, printExp ex ++ rest) := lexFrac_round fr _ hnd2 hdot2
  have hint : lexInt (printInt i ++ (printFrac fr ++ (printExp ex ++ rest))) =
      some (i, printFrac fr ++ (printExp ex ++ rest)) := lexInt_round i _ hnd1
  cases ng with
  | true =>
    simp only [printNum, if_pos rfl, List.cons_append, List.append_assoc, List.nil_append]
    simp [lexNum, hint, hfr, hexp]
  | false =>
    simp only [printNum, Bool.false_eq_true, if_neg, List.nil_append, List.append_assoc]
    cases i with
    | zero =>
      simp only [printInt, List.cons_append, List.nil_append]
      have hz : ¬('0' : Char) = '-' := by decide
      simp only [printInt, List.cons_append, List.nil_append] at hint
      simp [lexNum, hz, hint, hfr, hexp]
    | pos f ds =>
      simp only [printInt, List.cons_append]
      simp only [printInt, List.cons_append] at hint
      simp [lexNum, digitChar_ne_minus, hint, hfr, hexp]

/-! ## JSON strings: `QuoteJSONString` and string lexing -/

/-- How `JSON.stringify` renders one character inside a string literal: the
two-character escapes for quote, backslash and the named controls, a
`\u00XX` escape (lower-case hex) for the remaining controls, and the
character itself otherwise. -/
def escapeChar (c : Char) : List Char :=
  if c = '"' then ['\\', '"']
  else if c = '\\' then ['\\', '\\']
  else if c.toNat = 8 then ['\\', 'b']
  else if c.toNat = 12 then ['\\', 'f']
  else if c.toNat = 10 then ['\\', 'n']
  else if c.toNat = 13 then ['\\', 'r']
  else if c.toNat = 9 then ['\\', 't']
  else if h : c.toNat < 32 then
    '\\' :: ('u' :: ('0' :: ('0' :: [hexDigitChar ⟨c.toNat / 16, by omega⟩,
      hexDigitChar ⟨c.toNat % 16, by omega⟩])))
  else [c]

def escapeBody : List Char → List Char
  | [] => []
  | ch :: cs => escapeChar ch ++ escapeBody cs

/-- The single-character escapes accepted by `JSON.parse`. -/
def unescape1? (e : Char) : Option Char :=
  if e = '"' then some '"'
  else if e = '\\' then some '\\'
  else if e = '/' then some '/'
  else if e = 'b' then some (Char.ofNat 8)
  else if e = 'f' then some (Char.ofNat 12)
  else if e = 'n' then some (Char.ofNat 10)
  else if e = 'r' then some (Char.ofNat 13)
  else if e = 't' then some (Char.ofNat 9)
  else none

/-- Four hex digits, as in `\uXXXX`. -/
def hex4? (h1 h2 h3 h4 : Char) : Option Nat :=
  match hexVal? h1, hexVal? h2, hexVal? h3, hexVal? h4 with
  | some a, some b, some c, some d => some (((a * 16 + b) * 16 + c) * 16 + d)
  | _, _, _, _ => none

/-- The body of a string literal, after the opening quote: plain characters
(controls are ungrammatical), short escapes, and `\uXXXX` escapes, where a
high surrogate must be completed by a following `\uXXXX` low surrogate (the
pair denotes one astral scalar).  Lone surrogates — which JavaScript strings
can hold but Lean strings cannot — are out of the model.  Returns the
decoded characters and the text after the closing quote. -/
def lexStringBody : List Char → Option (List Char × List Char)
  | [] => none
  | '"' :: cs => some ([], cs)
  | '\\' :: 'u' :: h1 :: h2 :: h3 :: h4 :: cs2 =>
    (match hex4? h1 h2 h3 h4 with
     | none => none
     | some n =>
       if n < 55296 ∨ 57343 < n then
         match lexStringBody cs2 with
         | some (s, r) => some (Char.ofNat n :: s, r)
         | none => none
       else if n < 56320 then
         match cs2 with
         | '\\' :: 'u' :: g1 :: g2 :: g3 :: g4 :: cs3 =>
           (match hex4? g1 g2 g3 g4 with
            | none => none
            | some m =>
              if 56320 ≤ m ∧ m < 57344 then
                match lexStringBody cs3 with
                | some (s, r) =>
                  some (Char.ofNat (65536 + (n - 55296) * 1024 + (m - 56320)) :: s, r)
                | none => none
              else none)
         | _ => none
       else none)
  | '\\' :: e :: cs1 =>
    (match unescape1? e with
     | some c2 =>
       match lexStringBody cs1 with
       | some (s, r) => some (c2 :: s, r)
       | none => none
     | none => none)
  | '\\' :: [] => none
  | c :: cs =>
    if c.toNat < 32 then none
    else
      match lexStringBody cs with
      | some (s, r) => some (c :: s, r)
      | none => none

/-- Reduction of `lexStringBody` on an unescaped plain character. -/
theorem lexStringBody_plain (c : Char) (cs : List Char) (h1 : ¬c = '"')
    (h2 : ¬c = '\\') (h3 : ¬c.toNat < 32) :
    lexStringBody (c :: cs) =
      (match lexStringBody cs with
       | some (s, r) => some (c :: s, r)
       | none => none) := by
  rw [lexStringBody.eq_def]
  split
  · rename_i heq
    exact absurd heq (by simp)
  · rename_i cs2 heq
    injection heq with hc _
    exact absurd hc h1
  · rename_i hx1 hx2 hx3 hx4 cs2 heq
    injection heq with hc _
    exact absurd hc h2
  · rename_i e cs1 heq
    injection heq with hc _
    exact absurd hc h2
  · rename_i heq
    injection heq with hc _
    exact absurd hc h2
  · rename_i c2 cs2 hne1 hne2 hne3 heq
    injection heq with hc hcs
    subst hc
    subst hcs
    rw [if_neg h3]

theorem lexStringBody_escape : ∀ (s rest : List Char),
    lexStringBody (escapeBody s ++ '"' :: rest) = some (s, rest) := by
  intro s
  induction s with
  | nil => intro rest; rfl
  | cons c s ih =>
    intro rest
    show lexStringBody ((escapeChar c ++ escapeBody s) ++ '"' :: rest) = _
    rw [List.append_assoc]
    by_cases h1 : c = '"'
    · subst h1
      rw [show escapeChar '"' = ['\\', '"'] from rfl]
      show lexStringBody ('\\' :: '"' :: (escapeBody s ++ '"' :: rest)) = _
      rw [show lexStringBody ('\\' :: '"' :: (escapeBody s ++ '"' :: rest)) =
          (match lexStringBody (escapeBody s ++ '"' :: rest) with
           | some (sr, r) => some ('"' :: sr, r)
           | none => none) from rfl, ih rest]
    · by_cases h2 : c = '\\'
      · subst h2
        rw [show escapeChar '\\' = ['\\', '\\'] from rfl]
        show lexStringBody ('\\' :: '\\' :: (escapeBody s ++ '"' :: rest)) = _
        rw [show lexStringBody ('\\' :: '\\' :: (escapeBody s ++ '"' :: rest)) =
            (match lexStringBody (escapeBody s ++ '"' :: rest) with
             | some (sr, r) => some ('\\' :: sr, r)
             | none => none) from rfl, ih rest]
      · by_cases h3 : c.toNat = 8
        · have hc : c = Char.ofNat 8 := by rw [← Char.ofNat_toNat c, h3]
          subst hc
          rw [show escapeChar (Char.ofNat 8) = ['\\', 'b'] from rfl]
          show lexStringBody ('\\' :: 'b' :: (escapeBody s ++ '"' :: rest)) = _
          rw [show lexStringBody ('\\' :: 'b' :: (escapeBody s ++ '"' :: rest)) =
              (match lexStringBody (escapeBody s ++ '"' :: rest) with
               | some (sr, r) => some (Char.ofNat 8 :: sr, r)
               | none => none) from rfl, ih rest]
        · by_cases h4 : c.toNat = 12
          · have hc : c = Char.ofNat 12 := by rw [← Char.ofNat_toNat c, h4]
            subst hc
            rw [show escapeChar (Char.ofNat 12) = ['\\', 'f'] from rfl]
            show lexStringBody ('\\' :: 'f' :: (escapeBody s ++ '"' :: rest)) = _
            rw [show lexStringBody ('\\' :: 'f' :: (escapeBody s ++ '"' :: rest)) =
                (match lexStringBody (escapeBody s ++ '"' :: rest) with
                 | some (sr, r) => some (Char.ofNat 12 :: sr, r)
                 | none => none) from rfl, ih rest]
          · by_cases h5 : c.toNat = 10
            · have hc : c = Char.ofNat 10 := by rw [← Char.ofNat_toNat c, h5]
              subst hc
              rw [show escapeChar (Char.ofNat 10) = ['\\', 'n'] from rfl]
              show lexStringBody ('\\' :: 'n' :: (escapeBody s ++ '"' :: rest)) = _
              rw [show lexStringBody ('\\' :: 'n' :: (escapeBody s ++ '"' :: rest)) =
                  (match lexStringBody (escapeBody s ++ '"' :: rest) with
                   | some (sr, r) => some (Char.ofNat 10 :: sr, r)
                   | none => none) from rfl, ih rest]
            · by_cases h6 : c.toNat = 13
              · have hc : c = Char.ofNat 13 := by rw [← Char.ofNat_toNat c, h6]
                subst hc
                rw [show escapeChar (Char.ofNat 13) = ['\\', 'r'] from rfl]
                show lexStringBody ('\\' :: 'r' :: (escapeBody s ++ '"' :: rest)) = _
                rw [show lexStringBody ('\\' :: 'r' :: (escapeBody s ++ '"' :: rest)) =
                    (match lexStringBody (escapeBody s ++ '"' :: rest) with
                     | some (sr, r) => some (Char.ofNat 13 :: sr, r)
                     | none => none) from rfl, ih rest]
              · by_cases h7 : c.toNat = 9
                · have hc : c = Char.ofNat 9 := by rw [← Char.ofNat_toNat c, h7]
                  subst hc
                  rw [show escapeChar (Char.ofNat 9) = ['\\', 't'] from rfl]
                  show lexStringBody ('\\' :: 't' :: (escapeBody s ++ '"' :: rest)) = _
                  rw [show lexStringBody ('\\' :: 't' :: (escapeBody s ++ '"' :: rest)) =
                      (match lexStringBody (escapeBody s ++ '"' :: rest) with
                       | some (sr, r) => some (Char.ofNat 9 :: sr, r)
                       | none => none) from rfl, ih rest]
                · by_cases h8 : c.toNat < 32
                  · simp only [escapeChar, if_neg h1, if_neg h2, if_neg h3, if_neg h4,
                      if_neg h5, if_neg h6, if_neg h7, dif_pos h8, List.cons_append,
                      List.nil_append]
                    have hb1 : c.toNat / 16 < 16 := by omega
                    have hb2 : c.toNat % 16 < 16 := by omega
                    have hh : hex4? '0' '0' (hexDigitChar ⟨c.toNat / 16, hb1⟩)
                        (hexDigitChar ⟨c.toNat % 16, hb2⟩) = some c.toNat := by
                      have u1 := hexVal?_hexDigitChar ⟨c.toNat / 16, hb1⟩
                      have u2 := hexVal?_hexDigitChar ⟨c.toNat % 16, hb2⟩
                      simp only [hex4?, show hexVal? '0' = some 0 from rfl, u1, u2]
                      congr 1
                      omega
                    have hcond : c.toNat < 55296 ∨ 57343 < c.toNat := Or.inl (by omega)
                    rw [lexStringBody.eq_def]
                    simp only [hh, hcond, if_true, ih rest, Char.ofNat_toNat]
                  · simp only [escapeChar, if_neg h1, if_neg h2, if_neg h3, if_neg h4,
                      if_neg h5, if_neg h6, if_neg h7, dif_neg h8, List.cons_append,
                      List.nil_append]
                    rw [lexStringBody_plain c _ h1 h2 h8, ih rest]

/-! ## JSON values, `JSON.stringify(·, undefined, 4)` and `JSON.parse` -/

mutual
/-- A parsed JSON value.  Object members keep their textual order; `JSON.parse`
collapses duplicate keys and re-orders integer-like keys, which the model does
not reproduce (such texts do not arise from the component's own output). -/
inductive Json where
  | null
  | bool (b : Bool)
  | num (n : NumLex)
  | str (s : List Char)
  | arr (xs : JsonElems)
  | obj (ms : JsonMembers)
inductive JsonElems where
  | nil
  | cons (hd : Json) (tl : JsonElems)
inductive JsonMembers where
  | nil
  | cons (k : List Char) (v : Json) (tl : JsonMembers)
end

deriving instance DecidableEq for Json, JsonElems, JsonMembers

/-- The `gap` of `JSON.stringify(·, undefined, 4)`. -/
def indentStep : List Char := [' ', ' ', ' ', ' ']

mutual
/-- `SerializeJSONProperty` with the 4-space gap: `ind` is the accumulated
indentation of the enclosing value. -/
def printV (ind : List Char) : Json → List Char
  | .null => "null".data
  | .bool true => "true".data
  | .bool false => "false".data
  | .num n => printNum n
  | .str s => '"' :: (escapeBody s ++ ['"'])
  | .arr .nil => ['[', ']']
  | .arr (.cons x xs) =>
    '[' :: '\n' :: ((ind ++ indentStep) ++ (printV (ind ++ indentStep) x ++
      (elemsTail (ind ++ indentStep) xs ++ '\n' :: (ind ++ [']']))))
  | .obj .nil => [Char.ofNat 123, Char.ofNat 125]
  | .obj (.cons k v ms) =>
    Char.ofNat 123 :: '\n' :: ((ind ++ indentStep) ++
      (('"' :: (escapeBody k ++ ('"' :: ':' :: ' ' :: printV (ind ++ indentStep) v))) ++
        (membersTail (ind ++ indentStep) ms ++ '\n' :: (ind ++ [Char.ofNat 125]))))
termination_by structural v => v

/-- `,\n<ind><element>` for each further array element. -/
def elemsTail (ind : List Char) : JsonElems → List Char
  | .nil => []
  | .cons y ys => ',' :: '\n' :: (ind ++ (printV ind y ++ elemsTail ind ys))
termination_by structural xs => xs

/-- `,\n<ind><member>` for each further object member. -/
def membersTail (ind : List Char) : JsonMembers → List Char
  | .nil => []
  | .cons k v ms =>
    ',' :: '\n' :: (ind ++
      (('"' :: (escapeBody k ++ ('"' :: ':' :: ' ' :: printV ind v))) ++ membersTail ind ms))
termination_by structural ms => ms
end

/-- One object member: quoted key, `: `, value (the form `printV` and
`membersTail` emit inline for each member). -/
def printMember (ind : List Char) (k : List Char) (v : Json) : List Char :=
  '"' :: (escapeBody k ++ ('"' :: ':' :: ' ' :: printV ind v))

mutual
/-- `JSON.parse`, recursive descent with explicit fuel (each nesting or
element step consumes one unit; `parseTop` supplies enough for its input). -/
def parseVal : Nat → List Char → Option (Json × List Char)
  | 0, _ => none
  | fuel + 1, cs0 =>
    match skipWs cs0 with
    | [] => none
    | c :: cs =>
      if c = 'n' then
        match cs with
        | 'u' :: ('l' :: ('l' :: rest)) => some (.null, rest)
        | _ => none
      else if c = 't' then
        match cs with
        | 'r' :: ('u' :: ('e' :: rest)) => some (.bool true, rest)
        | _ => none
      else if c = 'f' then
        match cs with
        | 'a' :: ('l' :: ('s' :: ('e' :: rest))) => some (.bool false, rest)
        | _ => none
      else if c = '"' then
        match lexStringBody cs with
        | some (s, rest) => some (.str s, rest)
        | none => none
      else if c = '[' then
        match skipWs cs with
        | [] => none
        | c1 :: cs1 =>
          if c1 = ']' then some (.arr .nil, cs1)
          else
            match parseElems fuel (c1 :: cs1) with
            | some (vs, rest) => some (.arr vs, rest)
            | none => none
      else if c = Char.ofNat 123 then
        match skipWs cs with
        | [] => none
        | c1 :: cs1 =>
          if c1 = Char.ofNat 125 then some (.obj .nil, cs1)
          else
            match parseMembers fuel (c1 :: cs1) with
            | some (ms, rest) => some (.obj ms, rest)
            | none => none
      else
        match lexNum (c :: cs) with
        | some (n, rest) => some (.num n, rest)
        | none => none
termination_by structural fuel _ => fuel

/-- `value (, value)* ]`. -/
def parseElems : Nat → List Char → Option (JsonElems × List Char)
  | 0, _ => none
  | fuel + 1, cs =>
    match parseVal fuel cs with
    | none => none
    | some (v, rest) =>
      match skipWs rest with
      | [] => none
      | c :: rest2 =>
        if c = ']' then some (.cons v .nil, rest2)
        else if c = ',' then
          match parseElems fuel rest2 with
          | some (vs, rest3) => some (.cons v vs, rest3)
          | none => none
        else none
termination_by structural fuel _ => fuel

/-- `"key" : value (, "key" : value)* with closing brace`. -/
def parseMembers : Nat → List Char → Option (JsonMembers × List Char)
  | 0, _ => none
  | fuel + 1, cs =>
    match skipWs cs with
    | [] => none
    | c :: cs1 =>
      if c = '"' then
        match lexStringBody cs1 with
        | none => none
        | some (k, cs2) =>
          match skipWs cs2 with
          | [] => none
          | c2 :: cs3 =>
            if c2 = ':' then
              match parseVal fuel cs3 with
              | none => none
              | some (v, cs4) =>
                match skipWs cs4 with
                | [] => none
                | c3 :: cs5 =>
                  if c3 = Char.ofNat 125 then some (.cons k v .nil, cs5)
                  else if c3 = ',' then
                    match parseMembers fuel cs5 with
                    | some (ms, cs6) => some (.cons k v ms, cs6)
                    | none => none
                  else none
            else none
      else none
termination_by structural fuel _ => fuel
end

mutual
/-- Fuel sufficient for `parseVal` on the printed form of `v`. -/
def fuelJ : Json → Nat
  | .null | .bool _ | .num _ | .str _ => 1
  | .arr .nil => 1
  | .arr (.cons x xs) => 1 + fuelElems x xs
  | .obj .nil => 1
  | .obj (.cons _ v ms) => 1 + fuelMembers v ms
termination_by v => sizeOf v
decreasing_by all_goals (simp_wf; try omega)
def fuelElems : Json → JsonElems → Nat
  | x, .nil => 1 + fuelJ x
  | x, .cons y ys => 1 + max (fuelJ x) (fuelElems y ys)
termination_by x xs => sizeOf x + sizeOf xs
decreasing_by all_goals (simp_wf; try omega)
def fuelMembers : Json → JsonMembers → Nat
  | v, .nil => 1 + fuelJ v
  | v, .cons _ v2 ms => 1 + max (fuelJ v) (fuelMembers v2 ms)
termination_by v ms => sizeOf v + sizeOf ms
decreasing_by all_goals (simp_wf; try omega)
end

theorem fuelJ_pos (v : Json) : 1 ≤ fuelJ v := by
  cases v with
  | null => simp [fuelJ]
  | bool b => simp [fuelJ]
  | num n => simp [fuelJ]
  | str s => simp [fuelJ]
  | arr xs => cases xs <;> simp [fuelJ]
  | obj ms => cases ms <;> simp [fuelJ]

theorem fuelElems_pos (x : Json) (xs : JsonElems) : 1 ≤ fuelElems x xs := by
  cases xs <;> simp [fuelElems]

theorem fuelMembers_pos (v : Json) (ms : JsonMembers) : 1 ≤ fuelMembers v ms := by
  cases ms <;> simp [fuelMembers]

theorem parseVal_ws (fuel : Nat) (ws cs : List Char) (h : ws.all isWs = true) :
    parseVal fuel (ws ++ cs) = parseVal fuel cs := by
  cases fuel with
  | zero => simp only [parseVal]
  | succ f =>
    simp only [parseVal]
    rw [skipWs_append ws cs h]

theorem parseElems_ws (fuel : Nat) (ws cs : List Char) (h : ws.all isWs = true) :
    parseElems fuel (ws ++ cs) = parseElems fuel cs := by
  cases fuel with
  | zero => simp only [parseElems]
  | succ f =>
    simp only [parseElems]
    rw [parseVal_ws f ws cs h]

theorem parseMembers_ws (fuel : Nat) (ws cs : List Char) (h : ws.all isWs = true) :
    parseMembers fuel (ws ++ cs) = parseMembers fuel cs := by
  cases fuel with
  | zero => simp only [parseMembers]
  | succ f =>
    simp only [parseMembers]
    rw [skipWs_append ws cs h]

theorem indent_all_ws (ind : List Char) (h : ind.all isWs = true) :
    (ind ++ indentStep).all isWs = true := by
  rw [List.all_append, h]
  rfl

theorem digitChar_toNat : ∀ d : Fin 10, (digitChar d).toNat = 48 + d.val := by
  decide

/-- The first character of a printed number: `-` or a decimal digit. -/
theorem printNum_head (n : NumLex) :
    ∃ c cs', printNum n = c :: cs' ∧
      (c.toNat = 45 ∨ (48 ≤ c.toNat ∧ c.toNat < 58)) := by
  obtain ⟨ng, i, fr, ex⟩ := n
  cases ng with
  | true =>
    refine ⟨'-', printInt i ++ printFrac fr ++ printExp ex, ?_, Or.inl rfl⟩
    simp [printNum]
  | false =>
    cases i with
    | zero =>
      refine ⟨'0', printFrac fr ++ printExp ex, ?_, Or.inr (by decide)⟩
      simp [printNum, printInt]
    | pos f ds =>
      refine ⟨digitChar ⟨f.val + 1, by omega⟩,
        printDigits ds ++ printFrac fr ++ printExp ex, ?_, Or.inr ?_⟩
      · simp [printNum, printInt]
      · rw [digitChar_toNat]
        have := f.isLt
        omega

/-- A character that can start a number is not whitespace and not one of the
dispatch characters of `parseVal`. -/
theorem numStart_dispatch (c : Char)
    (h : c.toNat = 45 ∨ (48 ≤ c.toNat ∧ c.toNat < 58)) :
    isWs c = false ∧ ¬c = 'n' ∧ ¬c = 't' ∧ ¬c = 'f' ∧ ¬c = '"' ∧ ¬c = '[' ∧
      ¬c = Char.ofNat 123 ∧ ¬c = ']' := by
  refine And.intro ?_ (And.intro ?_ ⟨?_, ?_, ?_, ?_, ?_, ?_⟩)
  · rw [Bool.eq_false_iff]
    intro hw
    simp only [isWs, Bool.or_eq_true, decide_eq_true_eq] at hw
    rcases hw with ((hw | hw) | hw) | hw <;> subst hw <;> revert h <;> decide
  all_goals (rintro rfl; revert h; decide)

/-- The first character of any printed value is not whitespace and is not a
closing bracket. -/
theorem printV_head (ind : List Char) (v : Json) :
    ∃ c cs', printV ind v = c :: cs' ∧ isWs c = false ∧ ¬c = ']' := by
  cases v with
  | null => exact ⟨'n', "ull".data, rfl, rfl, by decide⟩
  | bool b =>
    match b with
    | true => exact ⟨'t', "rue".data, rfl, rfl, by decide⟩
    | false => exact ⟨'f', "alse".data, rfl, rfl, by decide⟩
  | num n =>
    obtain ⟨c, cs', hpr, hc⟩ := printNum_head n
    obtain ⟨hws, _, _, _, _, _, _, hbr⟩ := numStart_dispatch c hc
    exact ⟨c, cs', hpr, hws, hbr⟩
  | str s => exact ⟨'"', escapeBody s ++ ['"'], rfl, rfl, by decide⟩
  | arr xs => cases xs with
    | nil => exact ⟨'[', [']'], rfl, rfl, by decide⟩
    | cons x xs =>
      exact ⟨'[', '\n' :: ((ind ++ indentStep) ++ (printV (ind ++ indentStep) x ++
        (elemsTail (ind ++ indentStep) xs ++ '\n' :: (ind ++ [']'])))),
        rfl, rfl, by decide⟩
  | obj ms => cases ms with
    | nil => exact ⟨Char.ofNat 123, [Char.ofNat 125], rfl, rfl, by decide⟩
    | cons k v ms =>
      exact ⟨Char.ofNat 123, '\n' :: ((ind ++ indentStep) ++
        (printMember (ind ++ indentStep) k v ++
          (membersTail (ind ++ indentStep) ms ++ '\n' :: (ind ++ [Char.ofNat 125])))),
        rfl, rfl, by decide⟩

/-! ### Reduction lemmas for `parseVal` on each head character -/

theorem parseVal_null (f : Nat) (cs : List Char) :
    parseVal (f + 1) ('n' :: ('u' :: ('l' :: ('l' :: cs)))) = some (.null, cs) := by
  simp only [parseVal]
  rw [skipWs_cons_of_not _ _ (by decide)]
  simp

theorem parseVal_true (f : Nat) (cs : List Char) :
    parseVal (f + 1) ('t' :: ('r' :: ('u' :: ('e' :: cs)))) = some (.bool true, cs) := by
  simp only [parseVal]
  rw [skipWs_cons_of_not _ _ (by decide)]
  simp

theorem parseVal_false (f : Nat) (cs : List Char) :
    parseVal (f + 1) ('f' :: ('a' :: ('l' :: ('s' :: ('e' :: cs))))) = some (.bool false, cs) := by
  simp only [parseVal]
  rw [skipWs_cons_of_not _ _ (by decide)]
  simp

theorem parseVal_quote (f : Nat) (cs : List Char) :
    parseVal (f + 1) ('"' :: cs) =
      (match lexStringBody cs with
       | some (s, rest) => some (.str s, rest)
       | none => none) := by
  simp only [parseVal]
  rw [skipWs_cons_of_not _ _ (by decide)]
  simp

theorem parseVal_num_head (f : Nat) (c : Char) (cs : List Char)
    (hws : isWs c = false) (hn : ¬c = 'n') (ht : ¬c = 't') (hf : ¬c = 'f')
    (hq : ¬c = '"') (hbr : ¬c = '[') (hob : ¬c = Char.ofNat 123) :
    parseVal (f + 1) (c :: cs) =
      (match lexNum (c :: cs) with
       | some (n, rest) => some (.num n, rest)
       | none => none) := by
  simp only [parseVal]
  rw [skipWs_cons_of_not c cs hws]
  simp [hn, ht, hf, hq, hbr, hob]

theorem parseVal_lbrack (f : Nat) (cs : List Char) :
    parseVal (f + 1) ('[' :: cs) =
      (match skipWs cs with
       | [] => none
       | c1 :: cs1 =>
         if c1 = ']' then some (.arr .nil, cs1)
         else
           match parseElems f (c1 :: cs1) with
           | some (vs, rest) => some (.arr vs, rest)
           | none => none) := by
  simp only [parseVal]
  rw [skipWs_cons_of_not _ _ (by decide)]
  simp

theorem parseVal_lbrace (f : Nat) (cs : List Char) :
    parseVal (f + 1) (Char.ofNat 123 :: cs) =
      (match skipWs cs with
       | [] => none
       | c1 :: cs1 =>
         if c1 = Char.ofNat 125 then some (.obj .nil, cs1)
         else
           match parseMembers f (c1 :: cs1) with
           | some (ms, rest) => some (.obj ms, rest)
           | none => none) := by
  simp only [parseVal]
  rw [skipWs_cons_of_not _ _ (by decide)]
  simp

/-- One-step reduction of `parseMembers` at an opening quote. -/
theorem parseMembers_quote (f : Nat) (cs : List Char) :
    parseMembers (f + 1) ('"' :: cs) =
      (match lexStringBody cs with
       | none => none
       | some (k, cs2) =>
         match skipWs cs2 with
         | [] => none
         | c2 :: cs3 =>
           if c2 = ':' then
             match parseVal f cs3 with
             | none => none
             | some (v, cs4) =>
               match skipWs cs4 with
               | [] => none
               | c3 :: cs5 =>
                 if c3 = Char.ofNat 125 then some (.cons k v .nil, cs5)
                 else if c3 = ',' then
                   match parseMembers f cs5 with
                   | some (ms, cs6) => some (.cons k v ms, cs6)
                   | none => none
                 else none
           else none) := by
  simp only [parseMembers]
  rw [skipWs_cons_of_not _ _ (by decide)]
  simp

theorem succOfPos (fuel : Nat) (h : 0 < fuel) : ∃ f, fuel = f + 1 := by
  cases fuel with
  | zero => omega
  | succ f => exact ⟨f, rfl⟩

mutual
/-- Printed values re-parse to themselves: `parseVal` inverts `printV` given
enough fuel, whitespace-only indentation, and a printed context following
(`numStop`: end of input, `,`, or a newline). -/
theorem roundV : ∀ (v : Json) (ind rest : List Char) (fuel : Nat),
    fuelJ v ≤ fuel → ind.all isWs = true → numStop rest = true →
    parseVal fuel (printV ind v ++ rest) = some (v, rest)
  | .null, ind, rest, fuel, hfuel, hind, hrest => by
    obtain ⟨f, rfl⟩ := succOfPos fuel (by have h1 := fuelJ_pos .null; omega)
    rw [show printV ind .null = "null".data from rfl]
    exact parseVal_null f rest
  | .bool true, ind, rest, fuel, hfuel, hind, hrest => by
    obtain ⟨f, rfl⟩ := succOfPos fuel (by have h1 := fuelJ_pos (.bool true); omega)
    rw [show printV ind (.bool true) = "true".data from rfl]
    exact parseVal_true f rest
  | .bool false, ind, rest, fuel, hfuel, hind, hrest => by
    obtain ⟨f, rfl⟩ := succOfPos fuel (by have h1 := fuelJ_pos (.bool false); omega)
    rw [show printV ind (.bool false) = "false".data from rfl]
    exact parseVal_false f rest
  | .num n, ind, rest, fuel, hfuel, hind, hrest => by
    obtain ⟨f, rfl⟩ := succOfPos fuel (by have h1 := fuelJ_pos (.num n); omega)
    obtain ⟨c, cs', hpr, hcn⟩ := printNum_head n
    obtain ⟨hws, hn, ht, hf2, hq, hbr, hob, _⟩ := numStart_dispatch c hcn
    have hlex : lexNum (c :: (cs' ++ rest)) = some (n, rest) := by
      have h0 := lexNum_round n rest hrest
      rwa [hpr, List.cons_append] at h0
    rw [show printV ind (.num n) = printNum n from rfl, hpr, List.cons_append]
    rw [parseVal_num_head f c _ hws hn ht hf2 hq hbr hob, hlex]
  | .str s, ind, rest, fuel, hfuel, hind, hrest => by
    obtain ⟨f, rfl⟩ := succOfPos fuel (by have h1 := fuelJ_pos (.str s); omega)
    rw [show printV ind (.str s) = '"' :: (escapeBody s ++ ['"']) from rfl]
    rw [List.cons_append, List.append_assoc, List.singleton_append]
    rw [parseVal_quote f _, lexStringBody_escape s rest]
  | .arr .nil, ind, rest, fuel, hfuel, hind, hrest => by
    obtain ⟨f, rfl⟩ := succOfPos fuel (by have h1 := fuelJ_pos (.arr .nil); omega)
    rw [show printV ind (.arr .nil) = ['[', ']'] from rfl]
    rw [show (['[', ']'] : List Char) ++ rest = '[' :: ']' :: rest from rfl]
    rw [parseVal_lbrack f _]
    rw [skipWs_cons_of_not _ _ (by decide)]
    simp
  | .arr (.cons x xs), ind, rest, fuel, hfuel, hind, hrest => by
    obtain ⟨f, rfl⟩ := succOfPos fuel (by have h1 := fuelJ_pos (.arr (.cons x xs)); omega)
    have hind2 : (ind ++ indentStep).all isWs = true := indent_all_ws ind hind
    have hfe : fuelElems x xs ≤ f := by
      simp only [fuelJ] at hfuel
      omega
    obtain ⟨c1, cs1, hpr1, hws1, hne1⟩ := printV_head (ind ++ indentStep) x
    rw [show printV ind (.arr (.cons x xs)) =
        '[' :: '\n' :: ((ind ++ indentStep) ++ (printV (ind ++ indentStep) x ++
          (elemsTail (ind ++ indentStep) xs ++ '\n' :: (ind ++ [']'])))) from rfl]
    simp only [List.cons_append, List.append_assoc, List.singleton_append]
    rw [parseVal_lbrack f _]
    have hskip : skipWs ('\n' :: (ind ++ (indentStep ++ (printV (ind ++ indentStep) x ++
        (elemsTail (ind ++ indentStep) xs ++ '\n' :: (ind ++ (']' :: rest))))))) =
        c1 :: (cs1 ++ (elemsTail (ind ++ indentStep) xs ++
          '\n' :: (ind ++ (']' :: rest)))) := by
      rw [show ('\n' :: (ind ++ (indentStep ++ (printV (ind ++ indentStep) x ++
          (elemsTail (ind ++ indentStep) xs ++ '\n' :: (ind ++ (']' :: rest))))))) =
          (('\n' :: ind) ++ indentStep) ++ (printV (ind ++ indentStep) x ++
          (elemsTail (ind ++ indentStep) xs ++ '\n' :: (ind ++ (']' :: rest)))) by
        simp [List.cons_append, List.append_assoc]]
      rw [skipWs_append _ _ (by
        simp [List.all_append, List.all_cons, isWs, hind, indentStep])]
      rw [hpr1, List.cons_append]
      exact skipWs_cons_of_not _ _ hws1
    have hres : parseElems f (c1 :: (cs1 ++ (elemsTail (ind ++ indentStep) xs ++
        '\n' :: (ind ++ (']' :: rest))))) = some (.cons x xs, rest) := by
      rw [← List.cons_append, ← hpr1]
      exact roundElems x xs ind (ind ++ indentStep) rest f hfe hind hind2
    simp [hskip, if_neg hne1, hres]
  | .obj .nil, ind, rest, fuel, hfuel, hind, hrest => by
    obtain ⟨f, rfl⟩ := succOfPos fuel (by have h1 := fuelJ_pos (.obj .nil); omega)
    rw [show printV ind (.obj .nil) = [Char.ofNat 123, Char.ofNat 125] from rfl]
    rw [show ([Char.ofNat 123, Char.ofNat 125] : List Char) ++ rest =
        Char.ofNat 123 :: Char.ofNat 125 :: rest from rfl]
    rw [parseVal_lbrace f _]
    rw [skipWs_cons_of_not _ _ (by decide)]
    simp
  | .obj (.cons k v ms), ind, rest, fuel, hfuel, hind, hrest => by
    obtain ⟨f, rfl⟩ := succOfPos fuel (by have h1 := fuelJ_pos (.obj (.cons k v ms)); omega)
    have hind2 : (ind ++ indentStep).all isWs = true := indent_all_ws ind hind
    have hfm : fuelMembers v ms ≤ f := by
      simp only [fuelJ] at hfuel
      omega
    rw [show printV ind (.obj (.cons k v ms)) =
        Char.ofNat 123 :: '\n' :: ((ind ++ indentStep) ++
          (printMember (ind ++ indentStep) k v ++
            (membersTail (ind ++ indentStep) ms ++ '\n' :: (ind ++ [Char.ofNat 125])))) from rfl]
    simp only [List.cons_append, List.append_assoc, List.singleton_append]
    rw [parseVal_lbrace f _]
    have hpm : printMember (ind ++ indentStep) k v =
        '"' :: (escapeBody k ++ ('"' :: ':' :: ' ' :: printV (ind ++ indentStep) v)) := rfl
    have hskip : skipWs ('\n' :: (ind ++ (indentStep ++
        (printMember (ind ++ indentStep) k v ++
        (membersTail (ind ++ indentStep) ms ++
          '\n' :: (ind ++ (Char.ofNat 125 :: rest))))))) =
        '"' :: ((escapeBody k ++ ('"' :: ':' :: ' ' :: printV (ind ++ indentStep) v)) ++
          (membersTail (ind ++ indentStep) ms ++
            '\n' :: (ind ++ (Char.ofNat 125 :: rest)))) := by
      rw [show ('\n' :: (ind ++ (indentStep ++ (printMember (ind ++ indentStep) k v ++
          (membersTail (ind ++ indentStep) ms ++
            '\n' :: (ind ++ (Char.ofNat 125 :: rest))))))) =
          (('\n' :: ind) ++ indentStep) ++ (printMember (ind ++ indentStep) k v ++
          (membersTail (ind ++ indentStep) ms ++
            '\n' :: (ind ++ (Char.ofNat 125 :: rest)))) by
        simp [List.cons_append, List.append_assoc]]
      rw [skipWs_append _ _ (by
        simp [List.all_append, List.all_cons, isWs, hind, indentStep])]
      rw [hpm, List.cons_append]
      exact skipWs_cons_of_not _ _ (by decide)
    have hres : parseMembers f ('"' :: (escapeBody k ++ '"' :: ':' :: ' ' ::
        (printV (ind ++ indentStep) v ++ (membersTail (ind ++ indentStep) ms ++
          '\n' :: (ind ++ Char.ofNat 125 :: rest))))) = some (.cons k v ms, rest) := by
      rw [show ('"' :: (escapeBody k ++ '"' :: ':' :: ' ' ::
          (printV (ind ++ indentStep) v ++ (membersTail (ind ++ indentStep) ms ++
            '\n' :: (ind ++ Char.ofNat 125 :: rest))))) =
          printMember (ind ++ indentStep) k v ++ (membersTail (ind ++ indentStep) ms ++
            '\n' :: (ind ++ Char.ofNat 125 :: rest)) by
        rw [hpm]
        simp [List.cons_append, List.append_assoc]]
      exact roundMembers k v ms ind (ind ++ indentStep) rest f hfm hind hind2
    simp [hskip, if_neg (show ¬('"' : Char) = Char.ofNat 125 by decide), hres]
termination_by v ind rest fuel hf hi hr => sizeOf v
decreasing_by
  all_goals try simp_wf
  all_goals try simp
  all_goals omega

/-- Printed element lists (first element, separators, closing bracket)
re-parse to themselves. -/
theorem roundElems : ∀ (x : Json) (xs : JsonElems) (ind1 ind2 rest : List Char) (fuel : Nat),
    fuelElems x xs ≤ fuel → ind1.all isWs = true → ind2.all isWs = true →
    parseElems fuel (printV ind2 x ++ (elemsTail ind2 xs ++ '\n' :: (ind1 ++ ']' :: rest))) =
      some (.cons x xs, rest)
  | x, .nil, ind1, ind2, rest, fuel, hfuel, h1, h2 => by
    obtain ⟨f, rfl⟩ := succOfPos fuel (by have hp := fuelElems_pos x .nil; omega)
    have hx : fuelJ x ≤ f := by
      simp only [fuelElems] at hfuel
      omega
    simp only [parseElems]
    rw [show elemsTail ind2 .nil = [] from rfl, List.nil_append]
    have hrv := roundV x ind2 ('\n' :: (ind1 ++ ']' :: rest)) f hx h2 rfl
    rw [hrv]
    have hskip : skipWs ('\n' :: (ind1 ++ ']' :: rest)) = ']' :: rest := by
      rw [show ('\n' :: (ind1 ++ ']' :: rest)) = ('\n' :: ind1) ++ (']' :: rest) from rfl]
      rw [skipWs_append _ _ (by simp [List.all_cons, isWs, h1])]
      exact skipWs_cons_of_not _ _ (by decide)
    simp [hskip]
  | x, .cons y ys, ind1, ind2, rest, fuel, hfuel, h1, h2 => by
    obtain ⟨f, rfl⟩ := succOfPos fuel (by have hp := fuelElems_pos x (.cons y ys); omega)
    have hx : fuelJ x ≤ f := by
      simp only [fuelElems] at hfuel
      have hm := Nat.le_max_left (fuelJ x) (fuelElems y ys)
      omega
    have hfy : fuelElems y ys ≤ f := by
      simp only [fuelElems] at hfuel
      have hm := Nat.le_max_right (fuelJ x) (fuelElems y ys)
      omega
    simp only [parseElems]
    have htl2 : elemsTail ind2 (.cons y ys) ++ '\n' :: (ind1 ++ ']' :: rest) =
        ',' :: '\n' :: (ind2 ++ (printV ind2 y ++ (elemsTail ind2 ys ++
          '\n' :: (ind1 ++ ']' :: rest)))) := by
      rw [show elemsTail ind2 (.cons y ys) = ',' :: '\n' :: (ind2 ++ (printV ind2 y ++
        elemsTail ind2 ys)) from rfl]
      simp [List.cons_append, List.append_assoc]
    have hrv := roundV x ind2 (elemsTail ind2 (.cons y ys) ++ '\n' :: (ind1 ++ ']' :: rest)) f
      hx h2 (by rw [htl2]; rfl)
    rw [hrv, htl2]
    have hpe : parseElems f ('\n' :: (ind2 ++ (printV ind2 y ++ (elemsTail ind2 ys ++
        '\n' :: (ind1 ++ ']' :: rest))))) = some (.cons y ys, rest) := by
      rw [show ('\n' :: (ind2 ++ (printV ind2 y ++ (elemsTail ind2 ys ++
          '\n' :: (ind1 ++ ']' :: rest))))) =
          ('\n' :: ind2) ++ (printV ind2 y ++ (elemsTail ind2 ys ++
          '\n' :: (ind1 ++ ']' :: rest))) from rfl]
      rw [parseElems_ws f _ _ (by simp [List.all_cons, isWs, h2])]
      exact roundElems y ys ind1 ind2 rest f hfy h1 h2
    have hsk : skipWs (',' :: '\n' :: (ind2 ++ (printV ind2 y ++ (elemsTail ind2 ys ++
        '\n' :: (ind1 ++ ']' :: rest))))) =
        ',' :: '\n' :: (ind2 ++ (printV ind2 y ++ (elemsTail ind2 ys ++
        '\n' :: (ind1 ++ ']' :: rest)))) := skipWs_cons_of_not _ _ (by decide)
    simp [hsk, hpe]
termination_by x xs ind1 ind2 rest fuel hf h1 h2 => sizeOf x + sizeOf xs + 1
decreasing_by
  all_goals try simp_wf
  all_goals try simp
  all_goals omega

/-- Printed member lists re-parse to themselves. -/
theorem roundMembers : ∀ (k : List Char) (v : Json) (ms : JsonMembers)
    (ind1 ind2 rest : List Char) (fuel : Nat),
    fuelMembers v ms ≤ fuel → ind1.all isWs = true → ind2.all isWs = true →
    parseMembers fuel (printMember ind2 k v ++
      (membersTail ind2 ms ++ '\n' :: (ind1 ++ Char.ofNat 125 :: rest))) =
      some (.cons k v ms, rest)
  | k, v, .nil, ind1, ind2, rest, fuel, hfuel, h1, h2 => by
    obtain ⟨f, rfl⟩ := succOfPos fuel (by have hp := fuelMembers_pos v .nil; omega)
    have hv : fuelJ v ≤ f := by
      simp only [fuelMembers] at hfuel
      omega
    have hmt : membersTail ind2 (JsonMembers.nil) = [] := rfl
    rw [hmt, List.nil_append]
    have hrv := roundV v ind2 ('\n' :: (ind1 ++ Char.ofNat 125 :: rest)) f hv h2 rfl
    have hsp : parseVal f (' ' :: (printV ind2 v ++
        '\n' :: (ind1 ++ Char.ofNat 125 :: rest))) =
        some (v, '\n' :: (ind1 ++ Char.ofNat 125 :: rest)) := by
      rw [show (' ' :: (printV ind2 v ++ '\n' :: (ind1 ++ Char.ofNat 125 :: rest))) =
          [' '] ++ (printV ind2 v ++ '\n' :: (ind1 ++ Char.ofNat 125 :: rest)) from rfl]
      rw [parseVal_ws f [' '] _ (by decide)]
      exact hrv
    rw [show printMember ind2 k v ++ '\n' :: (ind1 ++ Char.ofNat 125 :: rest) =
        '"' :: (escapeBody k ++ ('"' :: (':' :: ' ' :: (printV ind2 v ++
          '\n' :: (ind1 ++ Char.ofNat 125 :: rest))))) by
      rw [show printMember ind2 k v = '"' :: (escapeBody k ++
        ('"' :: ':' :: ' ' :: printV ind2 v)) from rfl]
      simp [List.cons_append, List.append_assoc]]
    rw [parseMembers_quote f _]
    rw [lexStringBody_escape k _]
    have hskc : skipWs (':' :: ' ' :: (printV ind2 v ++
        '\n' :: (ind1 ++ Char.ofNat 125 :: rest))) =
        ':' :: ' ' :: (printV ind2 v ++ '\n' :: (ind1 ++ Char.ofNat 125 :: rest)) :=
      skipWs_cons_of_not _ _ (by decide)
    have hskip : skipWs ('\n' :: (ind1 ++ Char.ofNat 125 :: rest)) =
        Char.ofNat 125 :: rest := by
      rw [show ('\n' :: (ind1 ++ Char.ofNat 125 :: rest)) =
          ('\n' :: ind1) ++ (Char.ofNat 125 :: rest) from rfl]
      rw [skipWs_append _ _ (by simp [List.all_cons, isWs, h1])]
      exact skipWs_cons_of_not _ _ (by decide)
    simp [hskc, hsp, hskip]
  | k, v, .cons k2 v2 ms2, ind1, ind2, rest, fuel, hfuel, h1, h2 => by
    obtain ⟨f, rfl⟩ := succOfPos fuel (by have hp := fuelMembers_pos v (.cons k2 v2 ms2); omega)
    have hv : fuelJ v ≤ f := by
      simp only [fuelMembers] at hfuel
      have hm := Nat.le_max_left (fuelJ v) (fuelMembers v2 ms2)
      omega
    have hfm2 : fuelMembers v2 ms2 ≤ f := by
      simp only [fuelMembers] at hfuel
      have hm := Nat.le_max_right (fuelJ v) (fuelMembers v2 ms2)
      omega
    have htl2 : membersTail ind2 (.cons k2 v2 ms2) ++
        '\n' :: (ind1 ++ Char.ofNat 125 :: rest) =
        ',' :: '\n' :: (ind2 ++ (printMember ind2 k2 v2 ++ (membersTail ind2 ms2 ++
          '\n' :: (ind1 ++ Char.ofNat 125 :: rest)))) := by
      rw [show membersTail ind2 (.cons k2 v2 ms2) = ',' :: '\n' :: (ind2 ++
        (printMember ind2 k2 v2 ++ membersTail ind2 ms2)) from rfl]
      simp [List.cons_append, List.append_assoc]
    have hrv := roundV v ind2 (membersTail ind2 (.cons k2 v2 ms2) ++
      '\n' :: (ind1 ++ Char.ofNat 125 :: rest)) f hv h2 (by rw [htl2]; rfl)
    rw [htl2] at hrv
    have hsp : parseVal f (' ' :: (printV ind2 v ++ (',' :: '\n' :: (ind2 ++
        (printMember ind2 k2 v2 ++ (membersTail ind2 ms2 ++
          '\n' :: (ind1 ++ Char.ofNat 125 :: rest))))))) =
        some (v, ',' :: '\n' :: (ind2 ++ (printMember ind2 k2 v2 ++
          (membersTail ind2 ms2 ++ '\n' :: (ind1 ++ Char.ofNat 125 :: rest))))) := by
      rw [show (' ' :: (printV ind2 v ++ (',' :: '\n' :: (ind2 ++
          (printMember ind2 k2 v2 ++ (membersTail ind2 ms2 ++
            '\n' :: (ind1 ++ Char.ofNat 125 :: rest))))))) =
          [' '] ++ (printV ind2 v ++ (',' :: '\n' :: (ind2 ++
          (printMember ind2 k2 v2 ++ (membersTail ind2 ms2 ++
            '\n' :: (ind1 ++ Char.ofNat 125 :: rest)))))) from rfl]
      rw [parseVal_ws f [' '] _ (by decide)]
      exact hrv
    rw [show printMember ind2 k v ++ (membersTail ind2 (.cons k2 v2 ms2) ++
        '\n' :: (ind1 ++ Char.ofNat 125 :: rest)) =
        '"' :: (escapeBody k ++ ('"' :: (':' :: ' ' :: (printV ind2 v ++
          (',' :: '\n' :: (ind2 ++ (printMember ind2 k2 v2 ++ (membersTail ind2 ms2 ++
            '\n' :: (ind1 ++ Char.ofNat 125 :: rest))))))))) by
      rw [htl2]
      rw [show printMember ind2 k v = '"' :: (escapeBody k ++
        ('"' :: ':' :: ' ' :: printV ind2 v)) from rfl]
      simp [List.cons_append, List.append_assoc]]
    rw [parseMembers_quote f _]
    rw [lexStringBody_escape k _]
    have hpe : parseMembers f ('\n' :: (ind2 ++ (printMember ind2 k2 v2 ++
        (membersTail ind2 ms2 ++ '\n' :: (ind1 ++ Char.ofNat 125 :: rest))))) =
        some (.cons k2 v2 ms2, rest) := by
      rw [show ('\n' :: (ind2 ++ (printMember ind2 k2 v2 ++ (membersTail ind2 ms2 ++
          '\n' :: (ind1 ++ Char.ofNat 125 :: rest))))) =
          ('\n' :: ind2) ++ (printMember ind2 k2 v2 ++ (membersTail ind2 ms2 ++
          '\n' :: (ind1 ++ Char.ofNat 125 :: rest))) from rfl]
      rw [parseMembers_ws f _ _ (by simp [List.all_cons, isWs, h2])]
      exact roundMembers k2 v2 ms2 ind1 ind2 rest f hfm2 h1 h2
    have hskc : skipWs (':' :: ' ' :: (printV ind2 v ++ (',' :: '\n' :: (ind2 ++
        (printMember ind2 k2 v2 ++ (membersTail ind2 ms2 ++
          '\n' :: (ind1 ++ Char.ofNat 125 :: rest))))))) =
        ':' :: ' ' :: (printV ind2 v ++ (',' :: '\n' :: (ind2 ++
        (printMember ind2 k2 v2 ++ (membersTail ind2 ms2 ++
          '\n' :: (ind1 ++ Char.ofNat 125 :: rest)))))) :=
      skipWs_cons_of_not _ _ (by decide)
    have hsk2 : skipWs (',' :: '\n' :: (ind2 ++ (printMember ind2 k2 v2 ++
        (membersTail ind2 ms2 ++ '\n' :: (ind1 ++ Char.ofNat 125 :: rest))))) =
        ',' :: '\n' :: (ind2 ++ (printMember ind2 k2 v2 ++ (membersTail ind2 ms2 ++
        '\n' :: (ind1 ++ Char.ofNat 125 :: rest)))) :=
      skipWs_cons_of_not _ _ (by decide)
    simp [hskc, hsp, hsk2, hpe,
      if_neg (show ¬(',' : Char) = Char.ofNat 125 by decide)]
termination_by k v ms ind1 ind2 rest fuel hf h1 h2 => sizeOf v + sizeOf ms + 1
decreasing_by
  all_goals try simp_wf
  all_goals try simp
  all_goals omega
end

theorem printMember_length (ind k : List Char) (v : Json) :
    (printMember ind k v).length = (escapeBody k).length + (printV ind v).length + 4 := by
  rw [show printMember ind k v = '"' :: (escapeBody k ++
    ('"' :: ':' :: ' ' :: printV ind v)) from rfl]
  simp [List.length_append]
  omega

mutual
/-- The parser fuel needed for a printed value is bounded by its printed
length. -/
theorem fuelJ_le : ∀ (v : Json) (ind : List Char), fuelJ v ≤ (printV ind v).length
  | .null, ind => by
    rw [show printV ind .null = "null".data from rfl]
    simp [fuelJ]
  | .bool true, ind => by
    rw [show printV ind (.bool true) = "true".data from rfl]
    simp [fuelJ]
  | .bool false, ind => by
    rw [show printV ind (.bool false) = "false".data from rfl]
    simp [fuelJ]
  | .num n, ind => by
    obtain ⟨c, cs', hpr, _⟩ := printNum_head n
    rw [show printV ind (.num n) = printNum n from rfl, hpr]
    simp [fuelJ]
  | .str s, ind => by
    rw [show printV ind (.str s) = '"' :: (escapeBody s ++ ['"']) from rfl]
    simp [fuelJ]
  | .arr .nil, ind => by
    rw [show printV ind (.arr .nil) = ['[', ']'] from rfl]
    simp [fuelJ]
  | .arr (.cons x xs), ind => by
    have hb := fuelElems_le x xs (ind ++ indentStep)
    rw [show printV ind (.arr (.cons x xs)) =
        '[' :: '\n' :: ((ind ++ indentStep) ++ (printV (ind ++ indentStep) x ++
          (elemsTail (ind ++ indentStep) xs ++ '\n' :: (ind ++ [']'])))) from rfl]
    rw [show fuelJ (.arr (.cons x xs)) = 1 + fuelElems x xs by simp [fuelJ]]
    simp only [List.length_cons, List.length_append]
    omega
  | .obj .nil, ind => by
    rw [show printV ind (.obj .nil) = [Char.ofNat 123, Char.ofNat 125] from rfl]
    simp [fuelJ]
  | .obj (.cons k v ms), ind => by
    have hb := fuelMembers_le v ms (ind ++ indentStep)
    have hml := printMember_length (ind ++ indentStep) k v
    rw [show printV ind (.obj (.cons k v ms)) =
        Char.ofNat 123 :: '\n' :: ((ind ++ indentStep) ++
          (printMember (ind ++ indentStep) k v ++
            (membersTail (ind ++ indentStep) ms ++ '\n' :: (ind ++ [Char.ofNat 125])))) from rfl]
    rw [show fuelJ (.obj (.cons k v ms)) = 1 + fuelMembers v ms by simp [fuelJ]]
    simp only [List.length_cons, List.length_append]
    omega
termination_by v ind => sizeOf v
decreasing_by
  all_goals try simp_wf
  all_goals try simp
  all_goals omega

/-- Fuel bound for element lists, against the printed first element and the
printed tail. -/
theorem fuelElems_le : ∀ (x : Json) (xs : JsonElems) (ind : List Char),
    fuelElems x xs ≤ (printV ind x).length + (elemsTail ind xs).length + 2
  | x, .nil, ind => by
    have hb := fuelJ_le x ind
    rw [show fuelElems x .nil = 1 + fuelJ x by simp [fuelElems]]
    omega
  | x, .cons y ys, ind => by
    have hbx := fuelJ_le x ind
    have hby := fuelElems_le y ys ind
    rw [show fuelElems x (.cons y ys) = 1 + max (fuelJ x) (fuelElems y ys) by
      simp [fuelElems]]
    rw [show elemsTail ind (.cons y ys) = ',' :: '\n' :: (ind ++ (printV ind y ++
      elemsTail ind ys)) from rfl]
    simp only [List.length_cons, List.length_append]
    have hmax : max (fuelJ x) (fuelElems y ys) ≤ fuelJ x + fuelElems y ys :=
      Nat.max_le.mpr (And.intro (Nat.le_add_right _ _) (Nat.le_add_left _ _))
    have hp1 := fuelJ_pos x
    have hp2 := fuelElems_pos y ys
    omega
termination_by x xs ind => sizeOf x + sizeOf xs + 1
decreasing_by
  all_goals try simp_wf
  all_goals try simp
  all_goals omega

/-- Fuel bound for member lists. -/
theorem fuelMembers_le : ∀ (v : Json) (ms : JsonMembers) (ind : List Char),
    fuelMembers v ms ≤ (printV ind v).length + (membersTail ind ms).length + 2
  | v, .nil, ind => by
    have hb := fuelJ_le v ind
    rw [show fuelMembers v .nil = 1 + fuelJ v by simp [fuelMembers]]
    omega
  | v, .cons k2 v2 ms2, ind => by
    have hbv := fuelJ_le v ind
    have hb2 := fuelMembers_le v2 ms2 ind
    have hml := printMember_length ind k2 v2
    rw [show fuelMembers v (.cons k2 v2 ms2) = 1 + max (fuelJ v) (fuelMembers v2 ms2) by
      simp [fuelMembers]]
    rw [show membersTail ind (.cons k2 v2 ms2) = ',' :: '\n' :: (ind ++
      (printMember ind k2 v2 ++ membersTail ind ms2)) from rfl]
    simp only [List.length_cons, List.length_append]
    have hmax : max (fuelJ v) (fuelMembers v2 ms2) ≤ fuelJ v + fuelMembers v2 ms2 :=
      Nat.max_le.mpr (And.intro (Nat.le_add_right _ _) (Nat.le_add_left _ _))
    have hp1 := fuelJ_pos v
    have hp2 := fuelMembers_pos v2 ms2
    omega
termination_by v ms ind => sizeOf v + sizeOf ms + 1
decreasing_by
  all_goals try simp_wf
  all_goals try simp
  all_goals omega
end

/-- `JSON.parse`: one value, surrounded only by whitespace. -/
def parseJson (cs : List Char) : Option Json :=
  match parseVal (2 * cs.length + 2) cs with
  | some (v, rest) => if skipWs rest = [] then some v else none
  | none => none

/-- `JSON.stringify(v, undefined, 4)` at top level. -/
def stringify4 (v : Json) : List Char := printV [] v

/-- A printed value parses back to itself. -/
theorem parseJson_stringify4 (v : Json) : parseJson (stringify4 v) = some v := by
  have hfb := fuelJ_le v ([] : List Char)
  have hrv := roundV v [] [] (2 * (stringify4 v).length + 2) (by
    simp only [stringify4] at *
    omega) rfl rfl
  rw [List.append_nil] at hrv
  simp only [parseJson, stringify4] at *
  rw [hrv]
  rfl

/-! ## `SerializerWorkspace` (the React component) -/

/-- `prettyPrint` (lines 559-566): re-serialize with 4-space indentation when
the input parses as JSON, return the input unchanged otherwise. -/
def prettyPrint (text : String) : String :=
  match parseJson text.data with
  | some v => String.mk (stringify4 v)
  | none => text

/-- An opaque `core.AbiEntityHandler` wasm handle: `id` identifies the handle
(so that `free()` calls can be tracked) and `data` carries its
`core.AbiEntity` payload, left abstract. -/
structure AbiEntityHandler where
  id : Nat
  data : String
deriving Repr, DecidableEq

/-- `prepareHandler` (lines 554-557). -/
def prepareHandler (h : AbiEntityHandler) : AbiEntityHandler × String := (h, h.data)

/-- `SerializerWorkspaceState` (lines 457-461) plus a log of the handles
freed so far. -/
structure WsState where
  abiInput : String
  decodedAbi : Option (AbiEntityHandler × String)
  error : Option String
  freed : List Nat
deriving Repr, DecidableEq

/-- The handle ids `clear` would free from this state. -/
def freedOf (s : WsState) : List Nat :=
  match s.decodedAbi with
  | some (h, _) => [h.id]
  | none => []

/-- `clear` (lines 474-488): null out `decodedAbi` and `error`, freeing the
previously held handler. -/
def clear (s : WsState) : WsState :=
  { s with decodedAbi := none, error := none, freed := s.freed ++ freedOf s }

/-- `setNewAbi` (lines 490-497): `clear`, then install the new handler. -/
def setNewAbi (s : WsState) (h : AbiEntityHandler) : WsState :=
  let s2 := clear s
  { s2 with decodedAbi := some (prepareHandler h), error := none }

/-- `handleAbi` (lines 499-512): store the pretty-printed input, decode the
raw input through `core.parseAbi`, and either install the new handler or
clear and record the exception. -/
def handleAbi (parseAbi : String → Except String AbiEntityHandler)
    (s : WsState) (input : String) : WsState :=
  let s1 := { s with abiInput := prettyPrint input }
  match parseAbi input with
  | .ok h => setNewAbi s1 h
  | .error e =>
    let s2 := clear s1
    { s2 with error := some e }

/-! ## Concrete fixtures used by the witnesses -/

/-- A trivial collator comparison for concrete runs. -/
def leTriv : String → String → Bool := fun _ _ => true

/-- An environment whose validator accepts everything. -/
def envOk : Env :=
  { checkAbi := fun _ => .ok ()
    fetchText := fun u => .ok ("body:" ++ u)
    fileRead := .ok (some "file-text")
    rewrite := fun u => "rw:" ++ u }

/-- A validator that accepts every ABI text. -/
def checkOk : String → Except String Unit := fun _ => .ok ()

/-! ## The claims -/

/-- Claim C6: `loadAbiText` returns the pasted text when `fieldsInput.text`
is set; otherwise, when `fieldsInput.link` is set, it returns the body
fetched from the rewritten URL; otherwise, when `fieldsInput.file` is set, it
returns the file contents read as text (the empty string when the read
yields no result); and when none of the three is set it throws
`No ABI input specified`. -/
theorem claim_C6 (env : Env) (f : FieldsInput) :
    (∀ t, f.text = some t → loadAbiText env f = .ok t) ∧
    (f.text = none → ∀ l, f.link = some l →
      loadAbiText env f = env.fetchText (env.rewrite l)) ∧
    (f.text = none → f.link = none → f.file = some () →
      loadAbiText env f = env.fileRead.map (fun content => content.getD "")) ∧
    (f.text = none → f.link = none → f.file = none →
      loadAbiText env f = .error "No ABI input specified") := by
  refine And.intro ?_ ⟨?_, ?_, ?_⟩
  · intro t ht
    simp [loadAbiText, ht]
  · intro ht l hl
    simp [loadAbiText, ht, hl]
  · intro ht hl hf
    simp [loadAbiText, ht, hl, hf]
  · intro ht hl hf
    simp [loadAbiText, ht, hl, hf]

/-- Witness for C6: each of the four input shapes at a concrete
environment. -/
theorem claim_C6_witness :
    loadAbiText envOk { text := some "T" } = .ok "T" ∧
    loadAbiText envOk { link := some "L" } = .ok "body:rw:L" ∧
    loadAbiText envOk { file := some () } = .ok "file-text" ∧
    loadAbiText envOk {} = .error "No ABI input specified" := by
  refine ⟨(claim_C6 envOk { text := some "T" }).1 "T" rfl, ?_, ?_,
    (claim_C6 envOk {}).2.2.2 rfl rfl rfl⟩
  · rw [(claim_C6 envOk { link := some "L" }).2.1 rfl "L" rfl]
    rfl
  · rw [(claim_C6 envOk { file := some () }).2.2.1 rfl rfl rfl]
    rfl

/-- Claim C5: `handleAbi` decodes the raw input exclusively through
`core.parseAbi`: on success the previously held handler is freed and
`decodedAbi` holds the new handler together with its data; on a `parseAbi`
exception `decodedAbi` is cleared to null, the previous handler is freed,
and `error` is set to the string representation of the exception. -/
theorem claim_C5 (parseAbi : String → Except String AbiEntityHandler)
    (s : WsState) (input : String) :
    (∀ h, parseAbi input = .ok h →
      handleAbi parseAbi s input =
        { abiInput := prettyPrint input
          decodedAbi := some (h, h.data)
          error := none
          freed := s.freed ++ freedOf s }) ∧
    (∀ e, parseAbi input = .error e →
      handleAbi parseAbi s input =
        { abiInput := prettyPrint input
          decodedAbi := none
          error := some e
          freed := s.freed ++ freedOf s }) := by
  constructor
  · intro h hok
    simp [handleAbi, hok, setNewAbi, clear, prepareHandler, freedOf]
  · intro e herr
    simp [handleAbi, herr, clear, freedOf]

/-- Witness for C5: a success and a failure decode from a concrete
workspace state holding a previous handler. -/
theorem claim_C5_witness :
    handleAbi (fun _ => .ok ⟨7, "entity"⟩)
      { abiInput := "", decodedAbi := some (⟨3, "old"⟩, "old"), error := none,
        freed := [1] } "sig" =
      { abiInput := prettyPrint "sig", decodedAbi := some (⟨7, "entity"⟩, "entity"),
        error := none, freed := [1, 3] } ∧
    handleAbi (fun _ => .error "invalid abi")
      { abiInput := "", decodedAbi := some (⟨3, "old"⟩, "old"), error := none,
        freed := [1] } "sig" =
      { abiInput := prettyPrint "sig", decodedAbi := none,
        error := some "invalid abi", freed := [1, 3] } := by
  constructor
  · rw [(claim_C5 (fun _ => .ok ⟨7, "entity"⟩) _ "sig").1 ⟨7, "entity"⟩ rfl]
    rfl
  · rw [(claim_C5 (fun _ => .error "invalid abi") _ "sig").2 "invalid abi" rfl]
    rfl

/-- Claim C8: when `inProgress` is already set, `onSubmit` and `onSubmitZip`
return immediately leaving the whole state unchanged; otherwise they run
their bodies with `inProgress` set on entry, and the bodies reset
`inProgress` to false on exit on both the success and the error path. -/
theorem claim_C8 (le : String → String → Bool) (env : Env) (dateStr : String)
    (zipLoad : Except String ZipContent) (s : ComponentState) :
    (s.inProgress = true →
      onSubmit le env s = s ∧ onSubmitZip le env dateStr zipLoad s = s) ∧
    (s.inProgress = false →
      onSubmit le env s = onSubmitBody le env { s with inProgress := true } ∧
      onSubmitZip le env dateStr zipLoad s =
        onSubmitZipBody le env dateStr zipLoad { s with inProgress := true }) ∧
    (∀ s2, (onSubmitBody le env s2).inProgress = false) ∧
    (∀ s2, (onSubmitZipBody le env dateStr zipLoad s2).inProgress = false) := by
  refine And.intro ?_ ⟨?_, ?_, ?_⟩
  · intro hip
    constructor <;> simp [onSubmit, onSubmitZip, hip]
  · intro hip
    constructor <;> simp [onSubmit, onSubmitZip, hip]
  · intro s2
    unfold onSubmitBody
    split <;> rfl
  · intro s2
    unfold onSubmitZipBody
    split <;> rfl

/-- Witness for C8: the guard and the reset at a concrete state. -/
theorem claim_C8_witness :
    onSubmit leTriv envOk { initState leTriv [] with inProgress := true } =
      { initState leTriv [] with inProgress := true } ∧
    (onSubmit leTriv envOk (initState leTriv [])).inProgress = false := by
  constructor
  · exact ((claim_C8 leTriv envOk "d" (.error "e")
      { initState leTriv [] with inProgress := true }).1 rfl).1
  · rw [((claim_C8 leTriv envOk "d" (.error "e") (initState leTriv [])).2.1 rfl).1]
    exact (claim_C8 leTriv envOk "d" (.error "e") (initState leTriv [])).2.2.1 _

/-- Claim C9: `onSelectAbi` emits the `localStorage.getItem` result
unconditionally — the stored text when the key exists (then `selectedAbi`
becomes the name), and `null` when the key is absent (then `selectedAbi`
becomes `undefined`), even though the `change` event is declared to carry a
string; the selector dropdown is hidden either way. -/
theorem claim_C9 (s : ComponentState) (name : String) :
    ((onSelectAbi s name).emitted = s.emitted ++ [getItem s.localStorage name]) ∧
    (getItem s.localStorage name = none →
      (onSelectAbi s name).selectedAbi = none ∧
      (onSelectAbi s name).emitted = s.emitted ++ [none]) ∧
    (∀ t, getItem s.localStorage name = some t →
      (onSelectAbi s name).selectedAbi = some name ∧
      (onSelectAbi s name).emitted = s.emitted ++ [some t]) ∧
    ((onSelectAbi s name).abiSelectorVisible = false) := by
  refine ⟨rfl, ?_, ?_, rfl⟩
  · intro hnone
    simp [onSelectAbi, hnone]
  · intro t hsome
    simp [onSelectAbi, hsome]

/-- Witness for C9: a present and an absent key on a concrete store. -/
theorem claim_C9_witness :
    ((onSelectAbi { initState leTriv [("a", "X")] with emitted := [] } "a").selectedAbi =
      some "a") ∧
    ((onSelectAbi { initState leTriv [("a", "X")] with emitted := [] } "a").emitted =
      [some "X"]) ∧
    ((onSelectAbi { initState leTriv [("a", "X")] with emitted := [] } "zz").selectedAbi =
      none) ∧
    ((onSelectAbi { initState leTriv [("a", "X")] with emitted := [] } "zz").emitted =
      [none]) := by
  have h1 := (claim_C9 { initState leTriv [("a", "X")] with emitted := [] } "a").2.2.1
    "X" (by decide)
  have h2 := (claim_C9 { initState leTriv [("a", "X")] with emitted := [] } "zz").2.1
    (by decide)
  exact ⟨h1.1, h1.2, h2.1, h2.2⟩

/-- Claim C10: `prettyPrint` returns the 4-space-indented JSON serialization
of its input when the input parses as JSON and returns the input unchanged
otherwise; consequently it is idempotent. -/
theorem claim_C10 (s : String) :
    (∀ v, parseJson s.data = some v → prettyPrint s = String.mk (stringify4 v)) ∧
    (parseJson s.data = none → prettyPrint s = s) ∧
    prettyPrint (prettyPrint s) = prettyPrint s := by
  refine And.intro ?_ ⟨?_, ?_⟩
  · intro v hv
    simp [prettyPrint, hv]
  · intro hn
    simp [prettyPrint, hn]
  · cases hp : parseJson s.data with
    | none => simp [prettyPrint, hp]
    | some v =>
      have h1 : prettyPrint s = String.mk (stringify4 v) := by simp [prettyPrint, hp]
      rw [h1]
      have h2 : parseJson (String.mk (stringify4 v)).data = some v :=
        parseJson_stringify4 v
      simp [prettyPrint, h2]

/-- Witness for C10: a non-JSON input is returned unchanged; a JSON input is
re-indented, and pretty-printing is idempotent on it. -/
theorem claim_C10_witness :
    prettyPrint "not json" = "not json" ∧
    prettyPrint (prettyPrint "[1, 2]") = prettyPrint "[1, 2]" := by
  constructor
  · exact (claim_C10 "not json").2.1 (by decide)
  · exact (claim_C10 "[1, 2]").2.2

/-- Claim C1: for every ABI text obtained by `onSubmit` (from a file, pasted
text, or a URL), the text is written to client-side storage under the key
`abiNameInput` and emitted via the `change` event only after
`core.checkAbi(text)` returns without throwing; if loading or validation
throws, `localStorage`, `storedAbi` and `selectedAbi` are unchanged and
`error` is set to the string representation of the exception. -/
theorem claim_C1 (le : String → String → Bool) (env : Env) (s : ComponentState)
    (hip : s.inProgress = false) :
    (∀ t, loadAbiText env s.fieldsInput = .ok t → env.checkAbi t = .ok () →
      onSubmit le env s =
        { s with
          localStorage := setItem s.localStorage s.abiNameInput t
          storedAbi := getAllAbis le (setItem s.localStorage s.abiNameInput t)
          selectedAbi := some s.abiNameInput
          emitted := s.emitted ++ [some t]
          modalType := none
          fieldsInput := {}
          error := none
          inProgress := false }) ∧
    (∀ t e, loadAbiText env s.fieldsInput = .ok t → env.checkAbi t = .error e →
      onSubmit le env s = { s with error := some e, inProgress := false }) ∧
    (∀ e, loadAbiText env s.fieldsInput = .error e →
      onSubmit le env s = { s with error := some e, inProgress := false }) := by
  refine And.intro ?_ ⟨?_, ?_⟩
  · intro t hload hcheck
    simp [onSubmit, hip, onSubmitBody, hload, hcheck, Except.bind, Except.map]
  · intro t e hload hcheck
    simp [onSubmit, hip, onSubmitBody, hload, hcheck, Except.bind, Except.map]
  · intro e hload
    simp [onSubmit, hip, onSubmitBody, hload, Except.bind]

/-- Witness for C1: a successful pasted-text submission stores under the
current name and emits, and a rejected one only sets the error. -/
theorem claim_C1_witness :
    (onSubmit leTriv envOk
        { initState leTriv [] with fieldsInput := { text := some "[]" } }).localStorage =
      [("abi1", "[]")] ∧
    (onSubmit leTriv envOk
        { initState leTriv [] with fieldsInput := { text := some "[]" } }).emitted =
      [some "[]"] ∧
    onSubmit leTriv
        { envOk with checkAbi := fun _ => .error "Error: invalid" }
        { initState leTriv [("k", "v")] with fieldsInput := { text := some "[]" } } =
      { initState leTriv [("k", "v")] with
        fieldsInput := { text := some "[]" }
        error := some "Error: invalid"
        inProgress := false } := by
  have h1 := (claim_C1 leTriv envOk
    { initState leTriv [] with fieldsInput := { text := some "[]" } } rfl).1 "[]" rfl rfl
  have h2 := (claim_C1 leTriv { envOk with checkAbi := fun _ => .error "Error: invalid" }
    { initState leTriv [("k", "v")] with fieldsInput := { text := some "[]" } } rfl).2.1
    "[]" "Error: invalid" rfl rfl
  refine ⟨?_, ?_, h2⟩
  · rw [h1]
    rfl
  · rw [h1]
    rfl

theorem firstBad_spec (checkAbi : String → Except String Unit) :
    ∀ fl : List ZipEntry,
      (∀ f e, firstBad checkAbi fl = some (f, e) → f ∈ fl ∧ checkAbi f.text = .error e) ∧
      (firstBad checkAbi fl = none ↔ ∀ f ∈ fl, checkAbi f.text = .ok ()) := by
  intro fl
  induction fl with
  | nil => exact ⟨fun f e h => by simp [firstBad] at h, by simp [firstBad]⟩
  | cons g rest ih =>
    constructor
    · intro f e h
      simp only [firstBad] at h
      cases hg : checkAbi g.text with
      | error eg =>
        rw [hg] at h
        simp at h
        obtain ⟨hf, he⟩ := h
        subst hf
        subst he
        exact ⟨List.mem_cons_self g rest, hg⟩
      | ok u =>
        rw [hg] at h
        have hm := ih.1 f e h
        exact ⟨List.mem_cons_of_mem g hm.1, hm.2⟩
    · constructor
      · intro h f hf
        simp only [firstBad] at h
        cases hg : checkAbi g.text with
        | error eg =>
          rw [hg] at h
          simp at h
        | ok u =>
          rw [hg] at h
          rcases List.mem_cons.mp hf with hfg | hfr
          · subst hfg
            rw [hg]
          · exact ih.2.mp h f hfr
      · intro h
        simp only [firstBad]
        have hg := h g (List.mem_cons_self g rest)
        rw [hg]
        exact ih.2.mpr (fun f hf => h f (List.mem_cons_of_mem g hf))

/-- Claim C2: `processZipContent` validates every entry with `core.checkAbi`
before storing anything: an empty archive throws
`Provided zip archive is empty`; a rejected entry makes the whole call throw
an error naming that entry and nothing is written; otherwise every entry is
written under the key `[archiveBase_date] entryBase` and the `(key, text)`
pairs are returned in the order of the (sorted) entries. -/
theorem claim_C2 (checkAbi : String → Except String Unit) (dateStr : String)
    (ls : List (String × String)) (zc : ZipContent) :
    (zc.files = [] →
      processZipContent checkAbi dateStr ls zc = .error "Provided zip archive is empty") ∧
    (∀ f e, firstBad checkAbi zc.files = some (f, e) →
      f ∈ zc.files ∧ checkAbi f.text = .error e ∧
      processZipContent checkAbi dateStr ls zc = .error (zipErrMsg f.filename e)) ∧
    (firstBad checkAbi zc.files = none ↔ ∀ f ∈ zc.files, checkAbi f.text = .ok ()) ∧
    (zc.files ≠ [] → firstBad checkAbi zc.files = none →
      processZipContent checkAbi dateStr ls zc =
        .ok ((zc.files.map (fun f =>
                (zipStorageKey (baseName zc.filename ++ "_" ++ dateStr) f, f.text))).foldl
              (fun acc kv => setItem acc kv.1 kv.2) ls,
             zc.files.map (fun f =>
               (zipStorageKey (baseName zc.filename ++ "_" ++ dateStr) f, f.text)))) := by
  refine ⟨?_, ?_, (firstBad_spec checkAbi zc.files).2, ?_⟩
  · intro hempty
    simp [processZipContent, hempty]
  · intro f e hfb
    obtain ⟨hmem, herr⟩ := (firstBad_spec checkAbi zc.files).1 f e hfb
    refine ⟨hmem, herr, ?_⟩
    have hne : zc.files.isEmpty = false := by
      cases hfs : zc.files with
      | nil => rw [hfs] at hfb; simp [firstBad] at hfb
      | cons a b => rfl
    simp [processZipContent, hne, hfb]
  · intro hne hfb
    have hne2 : zc.files.isEmpty = false := by
      cases hfs : zc.files with
      | nil => exact absurd hfs hne
      | cons a b => rfl
    simp [processZipContent, hne2, hfb]

/-- Witness for C2: the empty archive, a rejected entry, and a successful
two-entry archive at concrete inputs. -/
theorem claim_C2_witness :
    processZipContent checkOk "2024-05-06" [] { filename := "x.zip", files := [] } =
      .error "Provided zip archive is empty" ∧
    processZipContent (fun t => if t = "bad" then .error "boom" else .ok ())
        "2024-05-06" []
        { filename := "x.zip", files := [{ filename := "a.abi", text := "bad" }] } =
      .error (zipErrMsg "a.abi" "boom") ∧
    processZipContent checkOk "2024-05-06" []
        { filename := "bundle.tar.zip",
          files := [{ filename := "a.abi", text := "[]" },
                    { filename := "b.abi", text := "[1]" }] } =
      .ok ([("[bundle_2024-05-06] a", "[]"), ("[bundle_2024-05-06] b", "[1]")],
           [("[bundle_2024-05-06] a", "[]"), ("[bundle_2024-05-06] b", "[1]")]) := by
  refine And.intro ?_ ⟨?_, ?_⟩
  · exact (claim_C2 checkOk "2024-05-06" [] { filename := "x.zip", files := [] }).1 rfl
  · have h := (claim_C2 (fun t => if t = "bad" then .error "boom" else .ok ())
      "2024-05-06" []
      { filename := "x.zip", files := [{ filename := "a.abi", text := "bad" }] }).2.1
      { filename := "a.abi", text := "bad" } "boom" rfl
    exact h.2.2
  · have h := (claim_C2 checkOk "2024-05-06" []
      { filename := "bundle.tar.zip",
        files := [{ filename := "a.abi", text := "[]" },
                  { filename := "b.abi", text := "[1]" }] }).2.2.2
      (by simp) rfl
    rw [h]
    rfl

/-- Claim C3: after every operation that changes the stored ABI set — a
successful `onSubmit`, a successful `onSubmitZip`, or `onDeleteAbi` —
`storedAbi` equals the list of all `localStorage` keys sorted with the
collation-aware comparator. -/
theorem claim_C3 (le : String → String → Bool) (env : Env) (dateStr : String)
    (zipLoad : Except String ZipContent) (s : ComponentState) (name : String) :
    ((onDeleteAbi le s name).storedAbi =
      getAllAbis le (onDeleteAbi le s name).localStorage) ∧
    (s.inProgress = false → ∀ t, loadAbiText env s.fieldsInput = .ok t →
      env.checkAbi t = .ok () →
      (onSubmit le env s).storedAbi = getAllAbis le (onSubmit le env s).localStorage) ∧
    (s.inProgress = false → ∀ res,
      zipLoad.bind (processZipContent env.checkAbi dateStr s.localStorage) = .ok res →
      (onSubmitZip le env dateStr zipLoad s).storedAbi =
        getAllAbis le (onSubmitZip le env dateStr zipLoad s).localStorage) := by
  refine ⟨rfl, ?_, ?_⟩
  · intro hip t hload hcheck
    simp [onSubmit, hip, onSubmitBody, hload, hcheck, Except.bind, Except.map]
  · intro hip res hres
    simp only [onSubmitZip, hip, Bool.false_eq_true, if_false, onSubmitZipBody]
    rw [show ({ s with inProgress := true } : ComponentState).localStorage =
      s.localStorage from rfl] at *
    rw [show ({ s with inProgress := true } : ComponentState).fieldsInput =
      s.fieldsInput from rfl] at *
    rw [hres]

/-- Witness for C3: a delete and a successful submit on a concrete store. -/
theorem claim_C3_witness :
    (onDeleteAbi leTriv (initState leTriv [("a", "1"), ("b", "2")]) "a").storedAbi =
      getAllAbis leTriv
        (onDeleteAbi leTriv (initState leTriv [("a", "1"), ("b", "2")]) "a").localStorage ∧
    (onSubmit leTriv envOk
        { initState leTriv [] with fieldsInput := { text := some "[]" } }).storedAbi =
      getAllAbis leTriv
        (onSubmit leTriv envOk
          { initState leTriv [] with fieldsInput := { text := some "[]" } }).localStorage := by
  constructor
  · exact (claim_C3 leTriv envOk "d" (.error "e")
      (initState leTriv [("a", "1"), ("b", "2")]) "a").1
  · exact (claim_C3 leTriv envOk "d" (.error "e")
      { initState leTriv [] with fieldsInput := { text := some "[]" } } "a").2.1
      rfl "[]" rfl rfl

/-- Claim C4: whenever the `address` or `codeHash` prop changes (including
becoming null), the in-flight Everscan fetch is flagged and aborted and
`everscanAbi` is reset to `undefined` before any new load starts; a response
belonging to a superseded (flagged) fetch never changes the state. -/
theorem claim_C4 (le : String → String → Bool) (ls0 : List (String × String))
    (evs : List Event) (ch addr : Option String) (id : Nat)
    (info : Option EverscanInfo) :
    ((runCleanup (execTrace le ls0 evs)).everscanAbi = none) ∧
    ((runCleanup (execTrace le ls0 evs)).fetches.all
      (fun f => f.flagged && f.aborted) = true) ∧
    ((stepProps (execTrace le ls0 evs) ch addr).everscanAbi = none) ∧
    (∀ s : ComponentState,
      s.fetches.all (fun f => !(decide (f.id = id)) || f.flagged) = true →
      respondFetch s id info = s) := by
  have hinv := watchInv_execTrace le ls0 evs
  refine ⟨runCleanup_everscanAbi _ hinv, ?_, stepProps_everscanAbi _ hinv ch addr, ?_⟩
  · rw [List.all_eq_true]
    intro f hf
    have h := runCleanup_flagged _ hinv f hf
    rw [h.1, h.2]
    rfl
  · intro s hall
    unfold respondFetch
    cases hfind : s.fetches.find? (fun f => f.id = id) with
    | none => rfl
    | some f =>
      have hmem := List.mem_of_find?_eq_some hfind
      have hp := List.find?_some hfind
      have hfl : f.flagged = true := by
        have := (List.all_eq_true.mp hall) f hmem
        rw [hp] at this
        simpa using this
      simp [hfl]

/-- Witness for C4: a concrete trace with one completed fetch, then a prop
change; and a stale response on a flagged fetch. -/
theorem claim_C4_witness :
    (stepProps (execTrace leTriv []
        [Event.propsChange (some "h") (some "a"),
         Event.respond 0 (some { abi := some "A" })])
      (some "h2") (some "a")).everscanAbi = none ∧
    respondFetch
        { initState leTriv [] with
          fetches := [{ id := 0, flagged := true, aborted := true }] }
        0 (some { abi := some "A" }) =
      { initState leTriv [] with
        fetches := [{ id := 0, flagged := true, aborted := true }] } := by
  constructor
  · exact (claim_C4 leTriv []
      [Event.propsChange (some "h") (some "a"),
       Event.respond 0 (some { abi := some "A" })]
      (some "h2") (some "a") 0 none).2.2.1
  · exact (claim_C4 leTriv [] [] none none 0 (some { abi := some "A" })).2.2.2
      { initState leTriv [] with
        fetches := [{ id := 0, flagged := true, aborted := true }] } (by decide)

/-- Claim C7: for the auto-detected registry path, a response carrying an
`abi` field sets `everscanAbi` to its serialization (when the fetch is still
current); `onSubmitEverscanAbi` emits `change` with `everscanAbi` exactly
when it is non-null and otherwise changes nothing; and neither the registry
continuation nor `onSubmitEverscanAbi` ever writes to `localStorage`. -/
theorem claim_C7 (s : ComponentState) (id : Nat) (i : EverscanInfo) (a : String)
    (f : Fetch) (info : Option EverscanInfo) :
    (s.fetches.find? (fun g => g.id = id) = some f → f.flagged = false →
      i.abi = some a →
      respondFetch s id (some i) = { s with everscanAbi := some a }) ∧
    (∀ b, s.everscanAbi = some b →
      onSubmitEverscanAbi s = { s with emitted := s.emitted ++ [some b] }) ∧
    (s.everscanAbi = none → onSubmitEverscanAbi s = s) ∧
    ((respondFetch s id info).localStorage = s.localStorage) ∧
    ((onSubmitEverscanAbi s).localStorage = s.localStorage) := by
  refine And.intro ?_ ⟨?_, ?_, ?_, ?_⟩
  · intro hfind hfl habi
    simp [respondFetch, hfind, hfl, habi]
  · intro b hb
    simp [onSubmitEverscanAbi, hb]
  · intro hb
    simp [onSubmitEverscanAbi, hb]
  · unfold respondFetch
    cases hfind : s.fetches.find? (fun g => g.id = id) with
    | none => rfl
    | some g =>
      by_cases hfl : g.flagged
      · simp [hfl]
      · simp only [if_neg hfl]
        cases info with
        | none => rfl
        | some j =>
          cases hab : j.abi with
          | none => simp [hab]
          | some b => simp [hab]
  · unfold onSubmitEverscanAbi
    cases hev : s.everscanAbi <;> rfl

/-- Witness for C7: a live fetch stores the serialized abi; submit emits it;
`localStorage` is untouched throughout. -/
theorem claim_C7_witness :
    respondFetch
        { initState leTriv [("k", "v")] with
          fetches := [{ id := 4, flagged := false, aborted := false }] }
        4 (some { abi := some "ABI" }) =
      { initState leTriv [("k", "v")] with
        fetches := [{ id := 4, flagged := false, aborted := false }],
        everscanAbi := some "ABI" } ∧
    onSubmitEverscanAbi { initState leTriv [] with everscanAbi := some "ABI" } =
      { initState leTriv [] with
        everscanAbi := some "ABI"
        emitted := [some "ABI"] } ∧
    onSubmitEverscanAbi (initState leTriv []) = initState leTriv [] := by
  refine And.intro ?_ ⟨?_, ?_⟩
  · exact (claim_C7
      { initState leTriv [("k", "v")] with
        fetches := [{ id := 4, flagged := false, aborted := false }] }
      4 { abi := some "ABI" } "ABI" { id := 4, flagged := false, aborted := false }
      none).1 (by decide) rfl rfl
  · exact (claim_C7 { initState leTriv [] with everscanAbi := some "ABI" } 0
      { abi := none } "x" { id := 0, flagged := false, aborted := false } none).2.1
      "ABI" rfl
  · exact (claim_C7 (initState leTriv []) 0 { abi := none } "x"
      { id := 0, flagged := false, aborted := false } none).2.2.1 rfl

end EverTools
